import Mathlib

/-!
Shallow embedding of the Canvas pipeline's identity-resolution and
incremental dimensional-build core
(`src/transform/build_identity_map.py`, `src/transform/build_curated.py`).

Modelling conventions:
* timestamps (`DATETIME2` values, Python `datetime`) are modelled as `Int`
  with the usual total order;
* JSON documents are modelled by the mutual inductive `JValue`; JSON
  numbers are modelled as integers (the claims under verification never
  depend on fractional numeric values);
* the outcome of `json.loads` on a raw payload is part of the modelled
  input: a `Payload` is either SQL `NULL` (`pnull`), a string that parses
  to a document (`pdoc v`), or a string on which `json.loads` raises
  (`pbad s`, carrying the raw text, since the Python code falls back to
  scanning the raw string);
* `datetime.fromisoformat` is an abstract parameter
  `pdt : String → Option Int` (the claims never depend on the concrete
  ISO-8601 grammar, only on which fields parse and on timestamp order);
* Python exceptions that the source does not catch (e.g. `AttributeError`
  when a parsed payload is not a JSON object) are modelled with `Except`.
-/

namespace CanvasPipeline

abbrev DT := Int

/- Model of a parsed JSON value (the result of `json.loads`).  Arrays and
objects are represented through the mutual types `JList` and `JFields` so
that all functions below are plain structural recursions. -/
mutual
inductive JValue where
  | jnull : JValue
  | jbool : Bool → JValue
  | jnum : Int → JValue
  | jstr : String → JValue
  | jarr : JList → JValue
  | jobj : JFields → JValue
inductive JList where
  | nil : JList
  | cons : JValue → JList → JList
inductive JFields where
  | nil : JFields
  | cons : String → JValue → JFields → JFields
end

/- Total size of a JSON document (used only to bound recursion depth). -/
mutual
def jsize : JValue → Nat
  | JValue.jnull => 1
  | JValue.jbool _ => 1
  | JValue.jnum _ => 1
  | JValue.jstr _ => 1
  | JValue.jarr xs => 1 + jlsize xs
  | JValue.jobj fs => 1 + jfsize fs
def jlsize : JList → Nat
  | JList.nil => 1
  | JList.cons v vs => 1 + jsize v + jlsize vs
def jfsize : JFields → Nat
  | JFields.nil => 1
  | JFields.cons _ v fs => 1 + jsize v + jfsize fs
end

/-- Python truthiness of a JSON value (`if obj[k]:`). -/
def jtruthy : JValue → Bool
  | JValue.jnull => false
  | JValue.jbool b => b
  | JValue.jnum n => n != 0
  | JValue.jstr s => s != ""
  | JValue.jarr JList.nil => false
  | JValue.jarr (JList.cons _ _) => true
  | JValue.jobj JFields.nil => false
  | JValue.jobj (JFields.cons _ _ _) => true

/-- Outcome of fetching and JSON-parsing a raw payload, as seen by the
Python code: `pnull` for SQL `NULL`, `pdoc v` for a payload string that
`json.loads` parses to `v`, `pbad s` for a payload string `s` on which
`json.loads` raises. -/
inductive Payload where
  | pnull : Payload
  | pdoc : JValue → Payload
  | pbad : String → Payload

-- ---------------------------------------------------------------------
-- string helpers (Python str.strip / str.lower / int(...)), implemented
-- over character lists so that they evaluate inside the kernel
-- ---------------------------------------------------------------------

/-- Python `str.strip()` on the character list. -/
def trimChars (cs : List Char) : List Char :=
  ((cs.dropWhile Char.isWhitespace).reverse.dropWhile Char.isWhitespace).reverse

/-- Python `str.strip()`. -/
def strTrim (s : String) : String := String.mk (trimChars s.data)

/-- Python `str.lower()` (ASCII case folding suffices for the inputs the
claims exercise). -/
def strLower (s : String) : String := String.mk (s.data.map Char.toLower)

/-- Value of a decimal digit list, `none` if empty or non-digit. -/
def digitsVal : List Char → Option Nat
  | [] => none
  | ds =>
    if ds.all Char.isDigit then
      some (ds.foldl (fun n c => 10 * n + (c.toNat - '0'.toNat)) 0)
    else none

/-- Python `int(s)` on a string: optional surrounding whitespace, optional
sign, decimal digits; anything else raises (`none` here). -/
def parseIntStr (s : String) : Option Int :=
  match trimChars s.data with
  | '-' :: ds => (digitsVal ds).map (fun n => -(n : Int))
  | '+' :: ds => (digitsVal ds).map (fun n => (n : Int))
  | ds => (digitsVal ds).map (fun n => (n : Int))

-- ---------------------------------------------------------------------
-- build_identity_map.py: EMAIL_RE and find_email
-- ---------------------------------------------------------------------

/-- A character allowed by the `[^\s@]` class of
`EMAIL_RE = ^[^\s@]+@[^\s@]+\.[^\s@]+$`. -/
def isEmailChar (c : Char) : Bool := !c.isWhitespace && c != '@'

/-- Split a character list at its first `'@'`. -/
def splitAtFirstAt : List Char → Option (List Char × List Char)
  | [] => none
  | c :: cs =>
    if c = '@' then some ([], cs)
    else
      match splitAtFirstAt cs with
      | some (l, r) => some (c :: l, r)
      | none => none

/-- The domain part `[^\s@]+\.[^\s@]+` requires a dot that is neither the
first nor the last character. -/
def hasInteriorDot : List Char → Bool
  | [] => false
  | _ :: rest => rest.dropLast.contains '.'

/-- Model of `EMAIL_RE.match(s)` for `EMAIL_RE = ^[^\s@]+@[^\s@]+\.[^\s@]+$`:
the string is `local@domain` where `local` is nonempty without whitespace
or `'@'`, and `domain` is likewise `'@'`- and whitespace-free with an
interior dot.  (`find_email` only matches strings it has already stripped,
so the `$`-before-trailing-newline subtlety of Python regexes cannot
arise.) -/
def emailMatch (s : String) : Bool :=
  match splitAtFirstAt s.data with
  | some (loc, dom) =>
    !loc.isEmpty && loc.all isEmailChar &&
      !dom.isEmpty && dom.all isEmailChar && hasInteriorDot dom
  | none => false

/-- The fixed priority key list of `find_email`. -/
def EMAIL_KEYS : List String :=
  ["email", "email_address", "login_id", "user_email", "user", "contact"]

/-- First value stored under key `k` (Python `k in obj` / `obj[k]`). -/
def lookupField (k : String) : JFields → Option JValue
  | JFields.nil => none
  | JFields.cons k2 v rest => if k2 = k then some v else lookupField k rest

/-- Work items of the `find_email` recursion: scan one value, scan an
object through the priority key list, or scan candidate values in order
(array elements or object values). -/
inductive ScanTask where
  | one : JValue → ScanTask
  | keys : List String → JFields → ScanTask
  | vals : JFields → ScanTask
  | items : JList → ScanTask

/-- Fuel-indexed implementation of `find_email` from
`build_identity_map.py`.  The recursion mirrors the Python function:
a string is stripped and tested against `EMAIL_RE`; a dict is scanned
first through the fixed key list (only keys that are present with truthy
values are followed), then depth-first through all its values; a list is
scanned element by element; any other value contributes nothing.  The
fuel argument only bounds the recursion depth (the Python recursion is
finite on any finite document) and `find_email` below instantiates it
with a bound that dominates every call chain. -/
def scanEmail : Nat → ScanTask → Option String
  | 0, _ => none
  | Nat.succ fuel, t =>
    match t with
    | ScanTask.one v =>
      match v with
      | JValue.jnull => none
      | JValue.jbool _ => none
      | JValue.jnum _ => none
      | JValue.jstr s =>
        let t := strTrim s
        if emailMatch t then some t else none
      | JValue.jobj fs =>
        match scanEmail fuel (ScanTask.keys EMAIL_KEYS fs) with
        | some e => some e
        | none => scanEmail fuel (ScanTask.vals fs)
      | JValue.jarr xs => scanEmail fuel (ScanTask.items xs)
    | ScanTask.keys ks fs =>
      match ks with
      | [] => none
      | k :: ks2 =>
        match lookupField k fs with
        | some v =>
          if jtruthy v then
            match scanEmail fuel (ScanTask.one v) with
            | some e => some e
            | none => scanEmail fuel (ScanTask.keys ks2 fs)
          else scanEmail fuel (ScanTask.keys ks2 fs)
        | none => scanEmail fuel (ScanTask.keys ks2 fs)
    | ScanTask.vals fs =>
      match fs with
      | JFields.nil => none
      | JFields.cons _ v rest =>
        match scanEmail fuel (ScanTask.one v) with
        | some e => some e
        | none => scanEmail fuel (ScanTask.vals rest)
    | ScanTask.items xs =>
      match xs with
      | JList.nil => none
      | JList.cons x rest =>
        match scanEmail fuel (ScanTask.one x) with
        | some e => some e
        | none => scanEmail fuel (ScanTask.items rest)

/-- Model of `find_email` from `build_identity_map.py`.  The depth bound
`16 * (jsize v + 16)` dominates the longest possible `scanEmail` call
chain (each document node accounts for at most the six priority keys plus
one step per field or element, and every node and list link contributes
to `jsize`). -/
def find_email (v : JValue) : Option String :=
  scanEmail (16 * (jsize v + 16)) (ScanTask.one v)

/-- The value Python's `find_email` is applied to: `None` for a `NULL`
payload, the parsed document on success, and — the fallback the source
comments as "treat as string" — the raw payload text when `json.loads`
raises. -/
def payloadValue : Payload → JValue
  | Payload.pnull => JValue.jnull
  | Payload.pdoc v => v
  | Payload.pbad s => JValue.jstr s

/-- Model of `normalize_email`: `None`/empty is falsy and yields `None`,
otherwise strip-then-lowercase. -/
def normalize_email : Option String → Option String
  | none => none
  | some e => if e = "" then none else some (strLower (strTrim e))

-- ---------------------------------------------------------------------
-- build_identity_map.py: main
-- ---------------------------------------------------------------------

/-- One row of `raw.canvas_users` as read by `build_identity_map.py`. -/
structure RawUser where
  id : Int
  raw_payload : Payload

/-- One row of `cur.person_identity_map`. -/
structure IdentityRow where
  canvas_user_id : Int
  email_normalized : String
  match_method : String
  match_confidence : Int
deriving DecidableEq, Repr

/-- One row of `cur.person_identity_map_dq`. -/
structure DqRow where
  canvas_user_id : Int
  email_normalized : String
  reason : String
  severity : String
  primary_canvas_user_id : Int
deriving DecidableEq, Repr

/-- The normalized email a raw person record contributes, if any:
`normalize_email(find_email(payload))`, with the truthiness guard
`if email_norm:` of the main loop folded in (an empty normalized string
is falsy and contributes nothing). -/
def emailOf (r : RawUser) : Option String :=
  match normalize_email (find_email (payloadValue r.raw_payload)) with
  | some en => if en = "" then none else some en
  | none => none

/-- Append `id` to the entry of `en`, or create a new entry at the end
(Python `email_map.setdefault(email_norm, []).append(...)`, with dict
insertion order). -/
def insertAppend (m : List (String × List Int)) (en : String) (i : Int) :
    List (String × List Int) :=
  match m with
  | [] => [(en, [i])]
  | (k, ids) :: rest =>
    if k = en then (k, ids ++ [i]) :: rest
    else (k, ids) :: insertAppend rest en i

/-- One iteration of the main loop of `build_identity_map.py`: a record
contributing a normalized email joins its group, any other record leaves
the map untouched. -/
def emailMapStep (m : List (String × List Int)) (r : RawUser) :
    List (String × List Int) :=
  match emailOf r with
  | some en => insertAppend m en r.id
  | none => m

/-- The `email_map` built by the main loop of `build_identity_map.py`:
normalized email → list of raw ids, in encounter order. -/
def buildEmailMap (rows : List RawUser) : List (String × List Int) :=
  rows.foldl emailMapStep []

/-- Insert an integer into an ascending list. -/
def insSorted (x : Int) : List Int → List Int
  | [] => [x]
  | y :: ys => if x ≤ y then x :: y :: ys else y :: insSorted x ys

/-- Ascending insertion sort. -/
def sortInts : List Int → List Int
  | [] => []
  | x :: xs => insSorted x (sortInts xs)

/-- Remove duplicates, keeping the last occurrence of each value (which
occurrence survives is irrelevant after sorting). -/
def dedupInts : List Int → List Int
  | [] => []
  | x :: xs => if x ∈ dedupInts xs then dedupInts xs else x :: dedupInts xs

/-- Python `sorted(set(ids))`. -/
def sortedSet (ids : List Int) : List Int := sortInts (dedupInts ids)

/-- The primary row of one email group: `sorted(set(ids))[0]` with the
constant match method/confidence of the source.  A group with an empty id
list cannot arise from `buildEmailMap`; it yields no row (Python would
raise an `IndexError` there). -/
def groupPrim (g : String × List Int) : List IdentityRow :=
  match sortedSet g.2 with
  | [] => []
  | p :: _ => [⟨p, g.1, "email_exact", 100⟩]

/-- The duplicate-flag rows of one email group: every non-primary member
of `sorted(set(ids))` references the primary. -/
def groupDqs (g : String × List Int) : List DqRow :=
  match sortedSet g.2 with
  | [] => []
  | p :: rest => rest.map (fun d => ⟨d, g.1, "duplicate_email", "warn", p⟩)

/-- The primary rows and duplicate-flag rows derived from the email map,
accumulated per group in map order as in the source's single loop. -/
def resolveGroups (emailMap : List (String × List Int)) :
    List IdentityRow × List DqRow :=
  emailMap.foldl (fun acc g => (acc.1 ++ groupPrim g, acc.2 ++ groupDqs g)) ([], [])

/-- Full resolver output of one run of `build_identity_map.py`. -/
def resolveIdentities (rows : List RawUser) : List IdentityRow × List DqRow :=
  resolveGroups (buildEmailMap rows)

/-- State change of `cur.person_identity_map` performed by one committed
run: delete the rows whose `canvas_user_id` equals some new primary id,
then insert the new primary rows. -/
def runIdentityMap (prior : List IdentityRow) (rows : List RawUser) :
    List IdentityRow :=
  let primaries := (resolveIdentities rows).1
  prior.filter (fun r => !primaries.any (fun p => p.canvas_user_id = r.canvas_user_id))
    ++ primaries

/-- State change of `cur.person_identity_map_dq` performed by one
committed run: delete the rows whose `canvas_user_id` equals some new
duplicate id, then insert the new duplicate-flag rows. -/
def runIdentityDq (prior : List DqRow) (rows : List RawUser) : List DqRow :=
  let dq := (resolveIdentities rows).2
  prior.filter (fun r => !dq.any (fun p => p.canvas_user_id = r.canvas_user_id))
    ++ dq

-- ---------------------------------------------------------------------
-- build_curated.py: shared helpers
-- ---------------------------------------------------------------------

/-- Model of `jget`: `d.get(key, default)` with `None` (and JSON `null`,
which `json.loads` turns into `None`) collapsed to the default. -/
def jget (fs : JFields) (k : String) : Option JValue :=
  match lookupField k fs with
  | some JValue.jnull => none
  | some v => some v
  | none => none

/-- Python `s[:-1] + "+00:00"` applied when `s.endswith("Z")`. -/
def zfix (s : String) : String :=
  match s.data.getLast? with
  | some c => if c = 'Z' then String.mk s.data.dropLast ++ "+00:00" else s
  | none => s

/-- Model of `parse_dt` applied to a `jget` result.  `datetime.fromisoformat`
is the abstract parameter `pdt`.  A missing value, an empty string (falsy),
and every non-string value yield `None` (a truthy non-string makes
`fromisoformat` raise, which `parse_dt` catches). -/
def parse_dt (pdt : String → Option DT) : Option JValue → Option DT
  | some (JValue.jstr s) => if s = "" then none else pdt (zfix s)
  | _ => none

/-- Python `int(x)` on a JSON value (numbers are modelled integral). -/
def pyInt : JValue → Except String Int
  | JValue.jnum n => Except.ok n
  | JValue.jbool b => Except.ok (if b then 1 else 0)
  | JValue.jstr s =>
    match parseIntStr s with
    | some n => Except.ok n
    | none => Except.error "ValueError: invalid literal for int()"
  | _ => Except.error "TypeError: int() argument"

/-- Python `float(x)` on a JSON value.  The claims never exercise
fractional values, so the result is carried as an integer. -/
def pyFloat : JValue → Except String Int
  | JValue.jnum n => Except.ok n
  | JValue.jbool b => Except.ok (if b then 1 else 0)
  | JValue.jstr s =>
    match parseIntStr s with
    | some n => Except.ok n
    | none => Except.error "ValueError: could not convert string to float"
  | _ => Except.error "TypeError: float() argument"

/-- Python `int(x) if x is not None else None`. -/
def pyIntOpt : Option JValue → Except String (Option Int)
  | none => Except.ok none
  | some v => (pyInt v).map some

/-- Python `float(x) if x is not None else None`. -/
def pyFloatOpt : Option JValue → Except String (Option Int)
  | none => Except.ok none
  | some v => (pyFloat v).map some

/-- Model of `parse_cli_dt_to_naive_utc`: falsy argument or falsy strip
give `None`; otherwise spaces become `T` and the string goes through
`parse_dt` (timezone conversion is inside the abstract `pdt`). -/
def parse_cli_dt_to_naive_utc (pdt : String → Option DT) : Option String → Option DT
  | none => none
  | some s =>
    if s = "" then none
    else
      let ss := strTrim s
      if ss = "" then none
      else
        let ss2 := String.mk (ss.data.map (fun c => if c = ' ' then 'T' else c))
        if ss2 = "" then none else pdt (zfix ss2)

-- ---------------------------------------------------------------------
-- build_curated.py: meta.watermark helpers
-- ---------------------------------------------------------------------

/-- The `meta.watermark` table: `source_name → last_updated_at`. -/
abbrev Watermarks := List (String × DT)

/-- Model of `get_last_watermark`: `SELECT last_updated_at ... WHERE
source_name = ?`, `None` when no row exists. -/
def get_last_watermark (wm : Watermarks) (source_name : String) : Option DT :=
  (wm.find? (fun p => p.1 = source_name)).map Prod.snd

/-- Model of `upsert_watermark`: `UPDATE ...; IF @@ROWCOUNT = 0 INSERT`. -/
def upsert_watermark (wm : Watermarks) (source_name : String) (v : DT) : Watermarks :=
  if wm.any (fun p => p.1 = source_name) then
    wm.map (fun p => if p.1 = source_name then (p.1, v) else p)
  else wm ++ [(source_name, v)]

-- ---------------------------------------------------------------------
-- build_curated.py: surrogate-keyed dimension tables and MERGE
-- ---------------------------------------------------------------------

/-- One dimension row: IDENTITY surrogate key, natural key, and the
non-key attribute columns. -/
structure DimRow (α : Type) where
  skey : Int
  nkey : Int
  attrs : α

/-- A surrogate-keyed dimension table with its IDENTITY seed. -/
structure DimTable (α : Type) where
  rows : List (DimRow α)
  next_key : Int

/-- One reconciliation step of the `MERGE ... WHEN MATCHED THEN UPDATE
SET <non-key attributes> WHEN NOT MATCHED THEN INSERT` statement: the
update set never contains the surrogate key column, an insert draws a
fresh IDENTITY value. -/
def mergeStep {α : Type} (t : DimTable α) (src : Int × α) : DimTable α :=
  if t.rows.any (fun r => r.nkey = src.1) then
    { t with
      rows := t.rows.map (fun r => if r.nkey = src.1 then { r with attrs := src.2 } else r) }
  else
    { rows := t.rows ++ [⟨t.next_key, src.1, src.2⟩], next_key := t.next_key + 1 }

/-- Set-based `MERGE` of a staged batch into a dimension keyed on the
natural key, modelled as a fold of `mergeStep` (faithful to the SQL
statement whenever the staged batch has no duplicate natural key, which
SQL Server would reject). -/
def mergeDim {α : Type} (t : DimTable α) (batch : List (Int × α)) : DimTable α :=
  batch.foldl mergeStep t

/-- Non-key columns of `cur.dim_student`. -/
structure StudentAttrs where
  email_normalized : Option String
  match_method : Option String
  match_confidence : Option Int
  updated_at : Option DT
deriving DecidableEq, Repr

/-- Non-key columns of `cur.dim_course` (string-typed columns keep the
JSON value the Python code read with `jget`). -/
structure CourseAttrs where
  name : Option JValue
  course_code : Option JValue
  workflow_state : Option JValue
  start_at : Option DT
  end_at : Option DT
  term_name : Option JValue
  sis_course_id : Option JValue
  account_id : Option Int
  raw_updated_at : Option DT
  updated_at : Option DT

/-- Model of `merge_dim_student`: MERGE on `canvas_user_id`, update set
`email_normalized, match_method, match_confidence, updated_at`. -/
def merge_dim_student (t : DimTable StudentAttrs) (rows : List (Int × StudentAttrs)) :
    DimTable StudentAttrs :=
  mergeDim t rows

/-- Model of `merge_dim_course`: MERGE on `canvas_course_id`, update set all
non-key columns. -/
def merge_dim_course (t : DimTable CourseAttrs) (rows : List (Int × CourseAttrs)) :
    DimTable CourseAttrs :=
  mergeDim t rows

/-- A natural-key → surrogate-key map. -/
abbrev KeyMap := List (Int × Int)

/-- Dictionary lookup `m.get(k)`.  (The dimension's natural key is UNIQUE,
so first match and Python's last-wins dict build coincide.) -/
def keyGet (m : KeyMap) (k : Int) : Option Int :=
  (m.find? (fun p => p.1 = k)).map Prod.snd

/-- Model of `load_student_key_map`: `canvas_user_id → gies_person_id`. -/
def load_student_key_map (t : DimTable StudentAttrs) : KeyMap :=
  t.rows.map (fun r => (r.nkey, r.skey))

/-- Model of `load_course_key_map`: `canvas_course_id → course_key`. -/
def load_course_key_map (t : DimTable CourseAttrs) : KeyMap :=
  t.rows.map (fun r => (r.nkey, r.skey))

/-- Model of `read_person_identity_map`: every `cur.person_identity_map` row
becomes a staged student batch row (`canvas_user_id` is NOT NULL, so the
`IS NOT NULL` filter of the query keeps every row). -/
def read_person_identity_map (now : DT) (pim : List IdentityRow) :
    List (Int × StudentAttrs) :=
  pim.map (fun r =>
    (r.canvas_user_id,
     ⟨some r.email_normalized, some r.match_method, some r.match_confidence, some now⟩))

-- ---------------------------------------------------------------------
-- build_curated.py: incremental raw reads
-- ---------------------------------------------------------------------

/-- One row of `raw.canvas_courses` / `raw.canvas_submissions`. -/
structure RawRec where
  id : Int
  raw_payload : Payload
  raw_updated_at : Option DT
  ingested_at : Option DT

/-- The SQL incremental predicate: no watermark reads everything,
otherwise `WHERE ingested_at >= ?` (inclusive; a SQL `NULL` ingested_at
never satisfies the comparison). -/
def inWindow (since : Option DT) (r : RawRec) : Bool :=
  match since with
  | none => true
  | some w =>
    match r.ingested_at with
    | some t => w ≤ t
    | none => false

/-- The record set an incremental read scans. -/
def windowFilter (since : Option DT) (recs : List RawRec) : List RawRec :=
  recs.filter (inWindow since)

/-- The running-maximum update `if ingested_at is not None and (max_ing is
None or ingested_at > max_ing)`. -/
def maxIngStep (max_ing : Option DT) (ing : Option DT) : Option DT :=
  match ing with
  | some t =>
    match max_ing with
    | none => some t
    | some m => if t > m then some t else some m
  | none => max_ing

/-- The `term_name` extraction: `term = d.get("term")`, then `term.get("name")`
only when `term` is a dict. -/
def termNameOf (fs : JFields) : Option JValue :=
  match lookupField "term" fs with
  | some (JValue.jobj tf) =>
    match lookupField "name" tf with
    | some JValue.jnull => none
    | x => x
  | _ => none

/-- Per-record body of `read_raw_courses`: a payload on which `json.loads`
raises (including `NULL`, where it raises `TypeError`) is skipped with
`continue`; a parsed non-object crashes on `d.get` (`AttributeError`,
uncaught); otherwise the staged course tuple is produced.  `int(account_id)`
may raise, also uncaught. -/
def readCourseRec (pdt : String → Option DT) (now : DT) (rec : RawRec) :
    Except String (Option (Int × CourseAttrs)) :=
  match rec.raw_payload with
  | Payload.pbad _ => Except.ok none
  | Payload.pnull => Except.ok none
  | Payload.pdoc (JValue.jobj fs) =>
    (pyIntOpt (jget fs "account_id")).map (fun accountId =>
      some (rec.id,
        { name := jget fs "name"
          course_code := jget fs "course_code"
          workflow_state := jget fs "workflow_state"
          start_at := parse_dt pdt (jget fs "start_at")
          end_at := parse_dt pdt (jget fs "end_at")
          term_name := termNameOf fs
          sis_course_id := jget fs "sis_course_id"
          account_id := accountId
          raw_updated_at := rec.raw_updated_at
          updated_at := some now }))
  | Payload.pdoc _ => Except.error "AttributeError: no attribute get"

/-- The record loop of `read_raw_courses`: the ingestion maximum is
updated before the parse attempt, so skipped records still contribute. -/
def readCoursesGo (pdt : String → Option DT) (now : DT)
    (acc : List (Int × CourseAttrs)) (max_ing : Option DT) :
    List RawRec → Except String (List (Int × CourseAttrs) × Option DT)
  | [] => Except.ok (acc, max_ing)
  | r :: rest =>
    let m2 := maxIngStep max_ing r.ingested_at
    match readCourseRec pdt now r with
    | Except.error e => Except.error e
    | Except.ok none => readCoursesGo pdt now acc m2 rest
    | Except.ok (some row) => readCoursesGo pdt now (acc ++ [row]) m2 rest

/-- Model of `read_raw_courses`: incremental select, then the parse loop. -/
def read_raw_courses (pdt : String → Option DT) (now : DT)
    (recs : List RawRec) (since : Option DT) :
    Except String (List (Int × CourseAttrs) × Option DT) :=
  readCoursesGo pdt now [] none (windowFilter since recs)

-- ---------------------------------------------------------------------
-- build_curated.py: fact_submission
-- ---------------------------------------------------------------------

/-- One row of `cur.fact_submission` (equally the staged tuple shape). -/
structure SubRow where
  canvas_submission_id : Int
  gies_person_id : Option Int
  course_key : Option Int
  canvas_user_id : Option Int
  canvas_course_id : Option Int
  assignment_id : Option Int
  submitted_at : Option DT
  graded_at : Option DT
  score : Option Int
  attempt : Option Int
  late_flag : Option Bool
  missing_flag : Option Bool
  due_at : Option DT
  on_time_flag : Option Bool
  workflow_state : Option JValue
  raw_updated_at : Option DT
  updated_at : Option DT

/-- Python `x is True` on a `jget` result. -/
def isPyTrue : Option JValue → Bool
  | some (JValue.jbool true) => true
  | _ => false

/-- The tri-state coercion `1 if x is True else 0 if x is False else None`
used for `late_flag` and `missing_flag`. -/
def triBit : Option JValue → Option Bool
  | some (JValue.jbool true) => some true
  | some (JValue.jbool false) => some false
  | _ => none

/-- The `on_time_flag` derivation of `read_raw_submissions` (lines
442-449): when both timestamps are present (a parsed datetime is always
truthy), the flag is `submitted_at <= due_at`; otherwise `late is True or
missing is True` forces `0`, and anything else leaves `NULL`. -/
def on_time_of (due_at submitted_at : Option DT) (late missing : Option JValue) :
    Option Bool :=
  match due_at, submitted_at with
  | some d, some s => some (decide (s ≤ d))
  | _, _ => if isPyTrue late || isPyTrue missing then some false else none

/-- Foreign-key resolution for one reference: absent reference resolves to
`NULL` with no skip; a present reference is coerced with `int(...)`
(which may raise) and looked up, an unresolved lookup counts one skip and
still yields `NULL`. -/
def resolveKey (m : KeyMap) (v : Option JValue) : Except String (Option Int × Nat) :=
  match v with
  | none => Except.ok (none, 0)
  | some jv =>
    match pyInt jv with
    | Except.error e => Except.error e
    | Except.ok k =>
      match keyGet m k with
      | some sk => Except.ok (some sk, 0)
      | none => Except.ok (none, 1)

/-- Per-record body of `read_raw_submissions`: parse failures (including a
`NULL` payload) are skipped with `continue`; a parsed non-object crashes
on `d.get`; otherwise the fact tuple is produced together with the
per-record unresolved-person and unresolved-course counts. -/
def readSubRec (smap cmap : KeyMap) (pdt : String → Option DT) (now : DT)
    (rec : RawRec) : Except String (Option (SubRow × Nat × Nat)) :=
  match rec.raw_payload with
  | Payload.pbad _ => Except.ok none
  | Payload.pnull => Except.ok none
  | Payload.pdoc (JValue.jobj fs) =>
    (resolveKey smap (jget fs "user_id")).bind (fun gp =>
    (resolveKey cmap (jget fs "course_id")).bind (fun ck =>
    (pyIntOpt (jget fs "user_id")).bind (fun cuid =>
    (pyIntOpt (jget fs "course_id")).bind (fun ccid =>
    (pyIntOpt (jget fs "assignment_id")).bind (fun aid =>
    (pyFloatOpt (jget fs "score")).bind (fun score =>
    (pyIntOpt (jget fs "attempt")).map (fun attempt =>
      let submitted := parse_dt pdt (jget fs "submitted_at")
      let late := jget fs "late"
      let missing := jget fs "missing"
      let due := parse_dt pdt (jget fs "due_at")
      some ({ canvas_submission_id := rec.id
              gies_person_id := gp.1
              course_key := ck.1
              canvas_user_id := cuid
              canvas_course_id := ccid
              assignment_id := aid
              submitted_at := submitted
              graded_at := parse_dt pdt (jget fs "graded_at")
              score := score
              attempt := attempt
              late_flag := triBit late
              missing_flag := triBit missing
              due_at := due
              on_time_flag := on_time_of due submitted late missing
              workflow_state := jget fs "workflow_state"
              raw_updated_at := rec.raw_updated_at
              updated_at := some now }, gp.2, ck.2))))))))
  | Payload.pdoc _ => Except.error "AttributeError: no attribute get"

/-- The record loop of `read_raw_submissions`, threading the emitted rows,
the two skip counters, and the running ingestion maximum (updated before
the parse attempt). -/
def readSubsGo (smap cmap : KeyMap) (pdt : String → Option DT) (now : DT)
    (acc : List SubRow) (su sc : Nat) (max_ing : Option DT) :
    List RawRec → Except String (List SubRow × Nat × Nat × Option DT)
  | [] => Except.ok (acc, su, sc, max_ing)
  | r :: rest =>
    let m2 := maxIngStep max_ing r.ingested_at
    match readSubRec smap cmap pdt now r with
    | Except.error e => Except.error e
    | Except.ok none => readSubsGo smap cmap pdt now acc su sc m2 rest
    | Except.ok (some (row, u, c)) =>
      readSubsGo smap cmap pdt now (acc ++ [row]) (su + u) (sc + c) m2 rest

/-- Model of `read_raw_submissions`: incremental select, then the parse loop. -/
def read_raw_submissions (smap cmap : KeyMap) (pdt : String → Option DT)
    (now : DT) (recs : List RawRec) (since : Option DT) :
    Except String (List SubRow × Nat × Nat × Option DT) :=
  readSubsGo smap cmap pdt now [] 0 0 none (windowFilter since recs)

/-- Model of `merge_fact_submission`: MERGE on `canvas_submission_id`, every
non-key column overwritten on match, insert otherwise (the key is the
natural id, no surrogate is issued). -/
def merge_fact_submission (tbl : List SubRow) (batch : List SubRow) : List SubRow :=
  batch.foldl
    (fun t row =>
      if t.any (fun r => r.canvas_submission_id = row.canvas_submission_id) then
        t.map (fun r =>
          if r.canvas_submission_id = row.canvas_submission_id then row else r)
      else t ++ [row])
    tbl

-- ---------------------------------------------------------------------
-- build_curated.py: main
-- ---------------------------------------------------------------------

/-- The mutable database state `main` acts on (the raw store is read-only
input and passed separately). -/
structure DbState where
  person_identity_map : List IdentityRow
  dim_student : DimTable StudentAttrs
  dim_course : DimTable CourseAttrs
  fact_submission : List SubRow
  watermark : Watermarks

/-- Python truthiness of the CLI argument (`if args.since_ingested_at`). -/
def cliTruthy : Option String → Bool
  | none => false
  | some s => s != ""

/-- The `since_ingested_at` computation of `main` (lines 574-579): parse
the CLI value; a truthy argument that fails to parse raises `ValueError`;
an absent (or falsy) argument falls back to the stored watermark of
`raw.canvas_submissions`. -/
def computeSince (pdt : String → Option DT) (wm : Watermarks)
    (cli : Option String) : Except String (Option DT) :=
  let parsed := parse_cli_dt_to_naive_utc pdt cli
  if cliTruthy cli && parsed.isNone then
    Except.error "ValueError: invalid since-ingested-at"
  else
    match parsed with
    | some v => Except.ok (some v)
    | none => Except.ok (get_last_watermark wm "raw.canvas_submissions")

/-- One run of `build_curated.main`, with each merge committing as it does
in the source.  An uncaught exception is returned as `Except.error`
together with the state already committed at that point (the failed
phase's own transaction rolls back).  Both wall-clock reads (`utcnow` and
`utcnow_naive`) are modelled by the single instant `now`. -/
def mainRun (pdt : String → Option DT) (now : DT)
    (courseRecs subRecs : List RawRec) (cli : Option String)
    (db : DbState) : Except (DbState × String) DbState :=
  match computeSince pdt db.watermark cli with
  | Except.error e => Except.error (db, e)
  | Except.ok since =>
    let student_rows := read_person_identity_map now db.person_identity_map
    let db1 := { db with dim_student := merge_dim_student db.dim_student student_rows }
    let smap := load_student_key_map db1.dim_student
    match read_raw_courses pdt now courseRecs since with
    | Except.error e => Except.error (db1, e)
    | Except.ok (course_rows, max_course_ing) =>
      let db2 := { db1 with dim_course := merge_dim_course db1.dim_course course_rows }
      let cmap := load_course_key_map db2.dim_course
      match read_raw_submissions smap cmap pdt now subRecs since with
      | Except.error e => Except.error (db2, e)
      | Except.ok (sub_rows, _skipU, _skipC, max_sub_ing) =>
        let db3 := { db2 with
          fact_submission := merge_fact_submission db2.fact_submission sub_rows }
        match maxIngStep (maxIngStep none max_course_ing) max_sub_ing with
        | some pt =>
          let wm1 := upsert_watermark db3.watermark "raw.canvas_submissions" pt
          let wm2 := upsert_watermark wm1 "cur.dim_course" pt
          let wm3 := upsert_watermark wm2 "cur.fact_submission" pt
          let wm4 := upsert_watermark wm3 "cur.dim_student" now
          Except.ok { db3 with watermark := wm4 }
        | none => Except.ok db3

-- ---------------------------------------------------------------------
-- shared lemmas
-- ---------------------------------------------------------------------

/-- Success equation for `readSubRec` on a parsed object payload. -/
theorem readSubRec_eq_ok {smap cmap : KeyMap} {pdt : String → Option DT} {now : DT}
    {i : Int} {ru ing : Option DT} {fs : JFields}
    {gp ck : Option Int × Nat} {cuid ccid aid score attempt : Option Int}
    (h1 : resolveKey smap (jget fs "user_id") = Except.ok gp)
    (h2 : resolveKey cmap (jget fs "course_id") = Except.ok ck)
    (h3 : pyIntOpt (jget fs "user_id") = Except.ok cuid)
    (h4 : pyIntOpt (jget fs "course_id") = Except.ok ccid)
    (h5 : pyIntOpt (jget fs "assignment_id") = Except.ok aid)
    (h6 : pyFloatOpt (jget fs "score") = Except.ok score)
    (h7 : pyIntOpt (jget fs "attempt") = Except.ok attempt) :
    readSubRec smap cmap pdt now ⟨i, Payload.pdoc (JValue.jobj fs), ru, ing⟩ =
      Except.ok (some
        ({ canvas_submission_id := i
           gies_person_id := gp.1
           course_key := ck.1
           canvas_user_id := cuid
           canvas_course_id := ccid
           assignment_id := aid
           submitted_at := parse_dt pdt (jget fs "submitted_at")
           graded_at := parse_dt pdt (jget fs "graded_at")
           score := score
           attempt := attempt
           late_flag := triBit (jget fs "late")
           missing_flag := triBit (jget fs "missing")
           due_at := parse_dt pdt (jget fs "due_at")
           on_time_flag := on_time_of (parse_dt pdt (jget fs "due_at"))
             (parse_dt pdt (jget fs "submitted_at")) (jget fs "late") (jget fs "missing")
           workflow_state := jget fs "workflow_state"
           raw_updated_at := ru
           updated_at := some now }, gp.2, ck.2)) := by
  simp [readSubRec, h1, h2, h3, h4, h5, h6, h7, Except.bind, Except.map]

/-- Inversion for a successfully emitted submission row: the row fields
are wired from the payload as in the source. -/
theorem readSubRec_ok_inv {smap cmap : KeyMap} {pdt : String → Option DT} {now : DT}
    {i : Int} {ru ing : Option DT} {fs : JFields} {row : SubRow} {u c : Nat}
    (hok : readSubRec smap cmap pdt now ⟨i, Payload.pdoc (JValue.jobj fs), ru, ing⟩ =
      Except.ok (some (row, u, c))) :
    row.canvas_submission_id = i ∧
    row.on_time_flag = on_time_of (parse_dt pdt (jget fs "due_at"))
      (parse_dt pdt (jget fs "submitted_at")) (jget fs "late") (jget fs "missing") ∧
    (∀ gp, resolveKey smap (jget fs "user_id") = Except.ok gp →
      row.gies_person_id = gp.1 ∧ u = gp.2) ∧
    (∀ ck, resolveKey cmap (jget fs "course_id") = Except.ok ck →
      row.course_key = ck.1 ∧ c = ck.2) := by
  rcases hgp : resolveKey smap (jget fs "user_id") with e | gp
  · simp [readSubRec, hgp, Except.bind] at hok
  rcases hck : resolveKey cmap (jget fs "course_id") with e | ck
  · simp [readSubRec, hgp, hck, Except.bind] at hok
  rcases h3 : pyIntOpt (jget fs "user_id") with e | cuid
  · simp [readSubRec, hgp, hck, h3, Except.bind] at hok
  rcases h4 : pyIntOpt (jget fs "course_id") with e | ccid
  · simp [readSubRec, hgp, hck, h3, h4, Except.bind] at hok
  rcases h5 : pyIntOpt (jget fs "assignment_id") with e | aid
  · simp [readSubRec, hgp, hck, h3, h4, h5, Except.bind] at hok
  rcases h6 : pyFloatOpt (jget fs "score") with e | score
  · simp [readSubRec, hgp, hck, h3, h4, h5, h6, Except.bind] at hok
  rcases h7 : pyIntOpt (jget fs "attempt") with e | attempt
  · simp [readSubRec, hgp, hck, h3, h4, h5, h6, h7, Except.bind, Except.map] at hok
  have heq := @readSubRec_eq_ok smap cmap pdt now i ru ing fs gp ck cuid ccid aid
    score attempt hgp hck h3 h4 h5 h6 h7
  rw [heq] at hok
  simp only [Except.ok.injEq, Option.some.injEq, Prod.mk.injEq] at hok
  obtain ⟨hrow, hu, hc⟩ := hok
  subst hrow
  subst hu
  subst hc
  refine ⟨rfl, rfl, ?_, ?_⟩
  · intro gp2 hgp2
    simp only [Except.ok.injEq, hgp] at hgp2
    subst hgp2
    exact ⟨rfl, rfl⟩
  · intro ck2 hck2
    simp only [Except.ok.injEq, hck] at hck2
    subst hck2
    exact ⟨rfl, rfl⟩

/-- On-time derivation when at least one timestamp is absent: the
tri-state falls back to the late/missing indicators. -/
theorem on_time_of_absent {due sub : Option DT} {late missing : Option JValue}
    (h : due = none ∨ sub = none) :
    on_time_of due sub late missing =
      (if isPyTrue late || isPyTrue missing then some false else none) := by
  rcases h with h | h
  · subst h
    cases sub <;> rfl
  · subst h
    cases due <;> rfl

-- ---------------------------------------------------------------------
-- concrete example inputs
-- ---------------------------------------------------------------------

/-- A concrete instantiation of the abstract `datetime.fromisoformat` for
the dates of the spec's on-time scenarios (encoded as day numbers with
the same order: 2025-01-09 < 2025-01-10 < 2025-01-11). -/
def pdtEx : String → Option DT := fun s =>
  if s = "2025-01-09" then some 9
  else if s = "2025-01-10" then some 10
  else if s = "2025-01-11" then some 11
  else none

/-- Scenario (a): due 2025-01-10, submitted 2025-01-09. -/
def subFieldsA : JFields :=
  JFields.cons "due_at" (JValue.jstr "2025-01-10")
    (JFields.cons "submitted_at" (JValue.jstr "2025-01-09") JFields.nil)

/-- Scenario (b): due 2025-01-10, submitted 2025-01-11. -/
def subFieldsB : JFields :=
  JFields.cons "due_at" (JValue.jstr "2025-01-10")
    (JFields.cons "submitted_at" (JValue.jstr "2025-01-11") JFields.nil)

/-- Scenario (c): due absent, submitted present, late = true. -/
def subFieldsC : JFields :=
  JFields.cons "submitted_at" (JValue.jstr "2025-01-09")
    (JFields.cons "late" (JValue.jbool true) JFields.nil)

/-- Scenario (d): due and late both absent. -/
def subFieldsD : JFields :=
  JFields.cons "submitted_at" (JValue.jstr "2025-01-09") JFields.nil

/-- A raw submission record carrying the given parsed payload. -/
def subRecOf (i : Int) (fs : JFields) : RawRec :=
  ⟨i, Payload.pdoc (JValue.jobj fs), none, some 1⟩

-- ---------------------------------------------------------------------
-- C3
-- ---------------------------------------------------------------------

/-- C3: for every emitted submission row, `on_time_flag` is three-state:
`submitted_at ≤ due_at` when both timestamps parse, `false` when at least
one is absent and the late or missing indicator is the boolean `true`,
and `null` otherwise; the spec's four scenarios evaluate accordingly. -/
theorem C3_on_time_three_state :
    (∀ (smap cmap : KeyMap) (pdt : String → Option DT) (now : DT) (i : Int)
       (ru ing : Option DT) (fs : JFields) (row : SubRow) (u c : Nat),
       readSubRec smap cmap pdt now ⟨i, Payload.pdoc (JValue.jobj fs), ru, ing⟩ =
         Except.ok (some (row, u, c)) →
       (∀ d s, parse_dt pdt (jget fs "due_at") = some d →
          parse_dt pdt (jget fs "submitted_at") = some s →
          row.on_time_flag = some (decide (s ≤ d))) ∧
       ((parse_dt pdt (jget fs "due_at") = none ∨
           parse_dt pdt (jget fs "submitted_at") = none) →
         ((isPyTrue (jget fs "late") || isPyTrue (jget fs "missing")) = true →
            row.on_time_flag = some false) ∧
         ((isPyTrue (jget fs "late") || isPyTrue (jget fs "missing")) = false →
            row.on_time_flag = none))) ∧
    (∃ r u c, readSubRec [] [] pdtEx 0 (subRecOf 1 subFieldsA) =
        Except.ok (some (r, u, c)) ∧ r.on_time_flag = some true) ∧
    (∃ r u c, readSubRec [] [] pdtEx 0 (subRecOf 2 subFieldsB) =
        Except.ok (some (r, u, c)) ∧ r.on_time_flag = some false) ∧
    (∃ r u c, readSubRec [] [] pdtEx 0 (subRecOf 3 subFieldsC) =
        Except.ok (some (r, u, c)) ∧ r.on_time_flag = some false) ∧
    (∃ r u c, readSubRec [] [] pdtEx 0 (subRecOf 4 subFieldsD) =
        Except.ok (some (r, u, c)) ∧ r.on_time_flag = none) := by
  refine ⟨?_, ⟨_, _, _, rfl, rfl⟩, ⟨_, _, _, rfl, rfl⟩, ⟨_, _, _, rfl, rfl⟩,
    ⟨_, _, _, rfl, rfl⟩⟩
  intro smap cmap pdt now i ru ing fs row u c hok
  obtain ⟨-, hflag, -, -⟩ := readSubRec_ok_inv hok
  constructor
  · intro d s hd hs
    rw [hflag, hd, hs]
    rfl
  · intro habs
    constructor
    · intro hind
      rw [hflag, on_time_of_absent habs, hind]
      rfl
    · intro hind
      rw [hflag, on_time_of_absent habs, hind]
      rfl

/-- Witness for C3 at scenario (a). -/
theorem C3_on_time_three_state_witness :
    readSubRec [] [] pdtEx 0 (subRecOf 1 subFieldsA) =
      Except.ok (some
        ({ canvas_submission_id := 1, gies_person_id := none, course_key := none,
           canvas_user_id := none, canvas_course_id := none, assignment_id := none,
           submitted_at := some 9, graded_at := none, score := none, attempt := none,
           late_flag := none, missing_flag := none, due_at := some 10,
           on_time_flag := some true, workflow_state := none, raw_updated_at := none,
           updated_at := some 0 }, 0, 0)) ∧
    ({ canvas_submission_id := 1, gies_person_id := none, course_key := none,
       canvas_user_id := none, canvas_course_id := none, assignment_id := none,
       submitted_at := some 9, graded_at := none, score := none, attempt := none,
       late_flag := none, missing_flag := none, due_at := some 10,
       on_time_flag := some true, workflow_state := none, raw_updated_at := none,
       updated_at := some 0 } : SubRow).on_time_flag = some (decide ((9 : Int) ≤ 10)) := by
  constructor
  · rfl
  · exact (C3_on_time_three_state.1 [] [] pdtEx 0 1 none (some 1) subFieldsA _ 0 0 rfl).1
      10 9 rfl rfl

-- ---------------------------------------------------------------------
-- C5
-- ---------------------------------------------------------------------

/-- A present reference that coerces but misses the key map resolves to
`NULL` with exactly one skip. -/
theorem resolveKey_unresolved {m : KeyMap} {v : JValue} {uid : Int}
    (hv : pyInt v = Except.ok uid) (hm : keyGet m uid = none) :
    resolveKey m (some v) = Except.ok (none, 1) := by
  simp [resolveKey, hv, hm]

/-- The submission loop over an appended batch runs the first part, then
continues from its state (errors propagate). -/
theorem readSubsGo_append (smap cmap : KeyMap) (pdt : String → Option DT) (now : DT)
    (l1 l2 : List RawRec) (acc : List SubRow) (su sc : Nat) (mi : Option DT) :
    readSubsGo smap cmap pdt now acc su sc mi (l1 ++ l2) =
      match readSubsGo smap cmap pdt now acc su sc mi l1 with
      | Except.ok (a, s, c, m) => readSubsGo smap cmap pdt now a s c m l2
      | Except.error e => Except.error e := by
  induction l1 generalizing acc su sc mi with
  | nil => rfl
  | cons r rest ih =>
    cases hr : readSubRec smap cmap pdt now r with
    | error e => simp [readSubsGo, hr]
    | ok o =>
      cases o with
      | none =>
        simp only [List.cons_append, readSubsGo, hr]
        apply ih
      | some t =>
        obtain ⟨row, u, c⟩ := t
        simp only [List.cons_append, readSubsGo, hr]
        apply ih

/-- C5: a submission whose `user_id` (respectively `course_id`) is present
but absent from the student (respectively course) key map is still
emitted — appended to the batch output with a `NULL` surrogate key — and
the corresponding unresolved-skip counter grows by exactly 1. -/
theorem C5_unresolved_reference_emitted :
    (∀ (smap cmap : KeyMap) (pdt : String → Option DT) (now : DT) (since : Option DT)
       (recs : List RawRec) (i : Int) (ru ing : Option DT) (fs : JFields)
       (v : JValue) (uid : Int) (row : SubRow) (u c : Nat)
       (out : List SubRow) (su sc : Nat) (mi : Option DT),
       jget fs "user_id" = some v →
       pyInt v = Except.ok uid →
       keyGet smap uid = none →
       readSubRec smap cmap pdt now ⟨i, Payload.pdoc (JValue.jobj fs), ru, ing⟩ =
         Except.ok (some (row, u, c)) →
       inWindow since ⟨i, Payload.pdoc (JValue.jobj fs), ru, ing⟩ = true →
       read_raw_submissions smap cmap pdt now recs since = Except.ok (out, su, sc, mi) →
       row.gies_person_id = none ∧ u = 1 ∧
       read_raw_submissions smap cmap pdt now
           (recs ++ [⟨i, Payload.pdoc (JValue.jobj fs), ru, ing⟩]) since =
         Except.ok (out ++ [row], su + 1, sc + c, maxIngStep mi ing)) ∧
    (∀ (smap cmap : KeyMap) (pdt : String → Option DT) (now : DT) (since : Option DT)
       (recs : List RawRec) (i : Int) (ru ing : Option DT) (fs : JFields)
       (v : JValue) (cid : Int) (row : SubRow) (u c : Nat)
       (out : List SubRow) (su sc : Nat) (mi : Option DT),
       jget fs "course_id" = some v →
       pyInt v = Except.ok cid →
       keyGet cmap cid = none →
       readSubRec smap cmap pdt now ⟨i, Payload.pdoc (JValue.jobj fs), ru, ing⟩ =
         Except.ok (some (row, u, c)) →
       inWindow since ⟨i, Payload.pdoc (JValue.jobj fs), ru, ing⟩ = true →
       read_raw_submissions smap cmap pdt now recs since = Except.ok (out, su, sc, mi) →
       row.course_key = none ∧ c = 1 ∧
       read_raw_submissions smap cmap pdt now
           (recs ++ [⟨i, Payload.pdoc (JValue.jobj fs), ru, ing⟩]) since =
         Except.ok (out ++ [row], su + u, sc + 1, maxIngStep mi ing)) := by
  constructor
  · intro smap cmap pdt now since recs i ru ing fs v uid row u c out su sc mi
      hv hint hmap hok hwin hprev
    have hrk : resolveKey smap (jget fs "user_id") = Except.ok ((none : Option Int), 1) := by
      rw [hv]
      exact resolveKey_unresolved hint hmap
    obtain ⟨-, -, hgp, -⟩ := readSubRec_ok_inv hok
    obtain ⟨hgies, hu⟩ := hgp (none, 1) hrk
    subst hu
    refine ⟨hgies, rfl, ?_⟩
    have hfil : windowFilter since (recs ++ [⟨i, Payload.pdoc (JValue.jobj fs), ru, ing⟩]) =
        windowFilter since recs ++ [⟨i, Payload.pdoc (JValue.jobj fs), ru, ing⟩] := by
      simp [windowFilter, List.filter_append, hwin]
    unfold read_raw_submissions at hprev ⊢
    rw [hfil, readSubsGo_append, hprev]
    simp only [readSubsGo, hok]
  · intro smap cmap pdt now since recs i ru ing fs v cid row u c out su sc mi
      hv hint hmap hok hwin hprev
    have hrk : resolveKey cmap (jget fs "course_id") = Except.ok ((none : Option Int), 1) := by
      rw [hv]
      exact resolveKey_unresolved hint hmap
    obtain ⟨-, -, -, hck⟩ := readSubRec_ok_inv hok
    obtain ⟨hckey, hc⟩ := hck (none, 1) hrk
    subst hc
    refine ⟨hckey, rfl, ?_⟩
    have hfil : windowFilter since (recs ++ [⟨i, Payload.pdoc (JValue.jobj fs), ru, ing⟩]) =
        windowFilter since recs ++ [⟨i, Payload.pdoc (JValue.jobj fs), ru, ing⟩] := by
      simp [windowFilter, List.filter_append, hwin]
    unfold read_raw_submissions at hprev ⊢
    rw [hfil, readSubsGo_append, hprev]
    simp only [readSubsGo, hok]

/-- Payload of the spec's unresolved-person scenario: `user_id = 9999`. -/
def subFieldsU : JFields := JFields.cons "user_id" (JValue.jnum 9999) JFields.nil

/-- The fact row emitted for the unresolved-person scenario. -/
def rowU : SubRow :=
  { canvas_submission_id := 9, gies_person_id := none, course_key := none,
    canvas_user_id := some 9999, canvas_course_id := none, assignment_id := none,
    submitted_at := none, graded_at := none, score := none, attempt := none,
    late_flag := none, missing_flag := none, due_at := none,
    on_time_flag := none, workflow_state := none, raw_updated_at := none,
    updated_at := some 0 }

/-- Witness for C5: the spec's `user_id = 9999` scenario on an empty key
map — the row is inserted with a `NULL` `gies_person_id` and the skip
count is 1. -/
theorem C5_unresolved_reference_emitted_witness :
    rowU.gies_person_id = none ∧ (1 : Nat) = 1 ∧
    read_raw_submissions [] [] pdtEx 0 ([] ++ [subRecOf 9 subFieldsU]) none =
      Except.ok ([] ++ [rowU], 0 + 1, 0 + 0, maxIngStep none (some 1)) :=
  C5_unresolved_reference_emitted.1 [] [] pdtEx 0 none [] 9 none (some 1) subFieldsU
    (JValue.jnum 9999) 9999 rowU 1 0 [] 0 0 none rfl rfl rfl rfl rfl rfl

-- ---------------------------------------------------------------------
-- C6
-- ---------------------------------------------------------------------

/-- C6: the incremental reads scan exactly the records with
`ingested_at ≥ W` (inclusive at the boundary, so `= W` is included and
`< W` is excluded, and a record with no `ingested_at` never qualifies),
and with no stored watermark (`since = none`) the whole backlog is read
unfiltered; both raw readers consume precisely this window. -/
theorem C6_incremental_window_inclusive :
    (∀ (recs : List RawRec) (w : DT) (r : RawRec),
       r ∈ windowFilter (some w) recs ↔
         r ∈ recs ∧ ∃ t, r.ingested_at = some t ∧ w ≤ t) ∧
    (∀ recs : List RawRec, windowFilter none recs = recs) ∧
    (∀ (pdt : String → Option DT) (now : DT) (recs : List RawRec) (since : Option DT),
       read_raw_courses pdt now recs since =
         readCoursesGo pdt now [] none (windowFilter since recs)) ∧
    (∀ (smap cmap : KeyMap) (pdt : String → Option DT) (now : DT)
       (recs : List RawRec) (since : Option DT),
       read_raw_submissions smap cmap pdt now recs since =
         readSubsGo smap cmap pdt now [] 0 0 none (windowFilter since recs)) := by
  refine ⟨?_, ?_, fun _ _ _ _ => rfl, fun _ _ _ _ _ _ => rfl⟩
  · intro recs w r
    rw [windowFilter, List.mem_filter]
    constructor
    · rintro ⟨hr, hw⟩
      refine ⟨hr, ?_⟩
      unfold inWindow at hw
      cases hing : r.ingested_at with
      | none => rw [hing] at hw; cases hw
      | some t =>
        rw [hing] at hw
        exact ⟨t, rfl, of_decide_eq_true hw⟩
    · rintro ⟨hr, t, hing, hle⟩
      refine ⟨hr, ?_⟩
      unfold inWindow
      rw [hing]
      exact decide_eq_true hle
  · intro recs
    simp [windowFilter, inWindow]

/-- Witness for C6 at a concrete one-record backlog on the boundary. -/
theorem C6_incremental_window_inclusive_witness :
    subRecOf 1 subFieldsD ∈ windowFilter (some 1) [subRecOf 1 subFieldsD] ↔
      subRecOf 1 subFieldsD ∈ [subRecOf 1 subFieldsD] ∧
        ∃ t, (subRecOf 1 subFieldsD).ingested_at = some t ∧ 1 ≤ t :=
  C6_incremental_window_inclusive.1 [subRecOf 1 subFieldsD] 1 (subRecOf 1 subFieldsD)

-- ---------------------------------------------------------------------
-- C1
-- ---------------------------------------------------------------------

/-- First dimension row holding the given natural key. -/
def findByNat {α : Type} (rows : List (DimRow α)) (nk : Int) : Option (DimRow α) :=
  rows.find? (fun r => r.nkey = nk)

/-- A found natural key makes the MERGE match predicate true. -/
theorem any_of_findByNat {α : Type} {rows : List (DimRow α)} {nk : Int} {r0 : DimRow α}
    (h : findByNat rows nk = some r0) :
    rows.any (fun r => r.nkey = nk) = true := by
  simp only [findByNat] at h
  induction rows with
  | nil => simp at h
  | cons r rest ih =>
    by_cases hk : r.nkey = nk
    · simp [List.any_cons, hk]
    · rw [List.find?_cons_of_neg _ (by simp [hk])] at h
      simp [List.any_cons, hk, ih h]

/-- The MERGE update of another natural key leaves the lookup unchanged. -/
theorem findByNat_update_other {α : Type} (rows : List (DimRow α)) (a : α) {k nk : Int}
    (hne : k ≠ nk) :
    findByNat (rows.map (fun r => if r.nkey = k then { r with attrs := a } else r)) nk =
      findByNat rows nk := by
  simp only [findByNat]
  induction rows with
  | nil => rfl
  | cons r rest ih =>
    rw [List.map_cons]
    by_cases hk : r.nkey = k
    · have hnr : ¬ r.nkey = nk := fun h => hne (hk.symm.trans h)
      rw [List.find?_cons_of_neg _ (by rw [if_pos hk]; simp [hnr]),
        List.find?_cons_of_neg _ (by simp [hnr])]
      exact ih
    · by_cases hnk : r.nkey = nk
      · rw [List.find?_cons_of_pos _ (by rw [if_neg hk]; simp [hnk]),
          List.find?_cons_of_pos _ (by simp [hnk]), if_neg hk]
      · rw [List.find?_cons_of_neg _ (by rw [if_neg hk]; simp [hnk]),
          List.find?_cons_of_neg _ (by simp [hnk])]
        exact ih

/-- The MERGE update of the looked-up natural key overwrites exactly the
attribute columns of the found row. -/
theorem findByNat_update_self {α : Type} (rows : List (DimRow α)) (a : α) {nk : Int}
    {r0 : DimRow α} (hfind : findByNat rows nk = some r0) :
    findByNat (rows.map (fun r => if r.nkey = nk then { r with attrs := a } else r)) nk =
      some { r0 with attrs := a } := by
  simp only [findByNat] at hfind ⊢
  induction rows with
  | nil => simp at hfind
  | cons r rest ih =>
    rw [List.map_cons]
    by_cases hk : r.nkey = nk
    · rw [List.find?_cons_of_pos _ (by simp [hk])] at hfind
      injection hfind with hfind
      subst hfind
      rw [List.find?_cons_of_pos _ (by rw [if_pos hk]; simp [hk]), if_pos hk]
    · rw [List.find?_cons_of_neg _ (by simp [hk])] at hfind
      rw [List.find?_cons_of_neg _ (by rw [if_neg hk]; simp [hk])]
      exact ih hfind

/-- Lookup distributes over an appended suffix when it already succeeds. -/
theorem findByNat_append_of_some {α : Type} {rows : List (DimRow α)} (extra : List (DimRow α))
    {nk : Int} {r0 : DimRow α} (h : findByNat rows nk = some r0) :
    findByNat (rows ++ extra) nk = some r0 := by
  simp only [findByNat] at h ⊢
  induction rows with
  | nil => simp at h
  | cons r rest ih =>
    rw [List.cons_append]
    by_cases hk : r.nkey = nk
    · rw [List.find?_cons_of_pos _ (by simp [hk])] at h ⊢
      exact h
    · rw [List.find?_cons_of_neg _ (by simp [hk])] at h ⊢
      exact ih h

/-- Appending a row with a different natural key cannot make a failed
lookup succeed. -/
theorem findByNat_append_single_other {α : Type} (rows : List (DimRow α)) (x : DimRow α)
    {nk : Int} (hx : x.nkey ≠ nk) (h : findByNat rows nk = none) :
    findByNat (rows ++ [x]) nk = none := by
  simp only [findByNat] at h ⊢
  induction rows with
  | nil =>
    rw [List.nil_append, List.find?_cons_of_neg _ (by simp [hx])]
    rfl
  | cons r rest ih =>
    rw [List.cons_append]
    by_cases hk : r.nkey = nk
    · rw [List.find?_cons_of_pos _ (by simp [hk])] at h
      cases h
    · rw [List.find?_cons_of_neg _ (by simp [hk])] at h ⊢
      exact ih h

/-- A merge step on a different source natural key does not change the
lookup result for `nk` at all. -/
theorem findByNat_mergeStep_other {α : Type} (t : DimTable α) (src : Int × α) {nk : Int}
    (hne : src.1 ≠ nk) :
    findByNat (mergeStep t src).rows nk = findByNat t.rows nk := by
  unfold mergeStep
  cases hany : t.rows.any (fun r => r.nkey = src.1) with
  | true =>
    rw [if_pos rfl]
    exact findByNat_update_other t.rows src.2 hne
  | false =>
    rw [if_neg (by simp)]
    show findByNat (t.rows ++ [⟨t.next_key, src.1, src.2⟩]) nk = findByNat t.rows nk
    cases hf : findByNat t.rows nk with
    | some r0 => exact findByNat_append_of_some _ hf
    | none => exact findByNat_append_single_other t.rows _ hne hf

/-- A merge step on the looked-up natural key updates the found row in
place (same surrogate key, staged attributes). -/
theorem findByNat_mergeStep_self {α : Type} (t : DimTable α) (src : Int × α) {nk : Int}
    {r0 : DimRow α} (hs : src.1 = nk) (hfind : findByNat t.rows nk = some r0) :
    findByNat (mergeStep t src).rows nk = some { r0 with attrs := src.2 } := by
  unfold mergeStep
  rw [if_pos (by rw [hs, any_of_findByNat hfind])]
  rw [hs]
  exact findByNat_update_self t.rows src.2 hfind

/-- A batch with no entry for `nk` leaves the lookup for `nk` unchanged. -/
theorem findByNat_mergeDim_no_touch {α : Type} (t : DimTable α) (batch : List (Int × α))
    {nk : Int} (hb : ∀ p ∈ batch, p.1 ≠ nk) :
    findByNat (mergeDim t batch).rows nk = findByNat t.rows nk := by
  induction batch generalizing t with
  | nil => rfl
  | cons src rest ih =>
    show findByNat (mergeDim (mergeStep t src) rest).rows nk = findByNat t.rows nk
    rw [ih (mergeStep t src) (fun p hp => hb p (List.mem_cons_of_mem _ hp))]
    exact findByNat_mergeStep_other t src (hb src (List.mem_cons_self _ _))

/-- A merge step keeps a present natural key present. -/
theorem findByNat_mergeStep_some {α : Type} (t : DimTable α) (src : Int × α) {nk : Int}
    {r0 : DimRow α} (h : findByNat t.rows nk = some r0) :
    ∃ r1, findByNat (mergeStep t src).rows nk = some r1 := by
  by_cases hs : src.1 = nk
  · exact ⟨_, findByNat_mergeStep_self t src hs h⟩
  · exact ⟨r0, by rw [findByNat_mergeStep_other t src hs]; exact h⟩

/-- Full tracking of a present natural key through a dimension MERGE: the
surrogate key and natural key of the found row never change, and the
attribute columns end up at the last staged value for that key (or stay
put when the batch never stages it). -/
theorem findByNat_mergeDim_tracked {α : Type} (batch : List (Int × α)) (t : DimTable α)
    {nk : Int} {r0 : DimRow α} (h : findByNat t.rows nk = some r0) :
    findByNat (mergeDim t batch).rows nk =
      some ⟨r0.skey, r0.nkey,
        (batch.filter (fun p => p.1 = nk)).foldl (fun _ p => p.2) r0.attrs⟩ := by
  induction batch generalizing t r0 with
  | nil => exact h
  | cons src rest ih =>
    by_cases hs : src.1 = nk
    · have h2 := findByNat_mergeStep_self t src hs h
      have h3 := ih (mergeStep t src) h2
      show findByNat (mergeDim (mergeStep t src) rest).rows nk = _
      rw [h3]
      rw [List.filter_cons_of_pos (by simp [hs])]
      rfl
    · have h2 : findByNat (mergeStep t src).rows nk = some r0 := by
        rw [findByNat_mergeStep_other t src hs]
        exact h
      have h3 := ih (mergeStep t src) h2
      show findByNat (mergeDim (mergeStep t src) rest).rows nk = _
      rw [h3]
      rw [List.filter_cons_of_neg (by simp [hs])]

/-- The fold that repeatedly replaces the accumulator returns the last
list element when there is one. -/
theorem foldl_replace_getLast {β : Type} (l : List (Int × β)) (x : β) {y : Int × β}
    (h : l.getLast? = some y) : l.foldl (fun _ p => p.2) x = y.2 := by
  induction l generalizing x with
  | nil => cases h
  | cons z rest ih =>
    cases rest with
    | nil =>
      simp only [List.getLast?_singleton, Option.some.injEq] at h
      subst h
      rfl
    | cons w ws =>
      rw [List.getLast?_cons_cons] at h
      exact ih z.2 h

/-- A MERGE update step never changes how many rows carry a natural key. -/
theorem countP_update {α : Type} (rows : List (DimRow α)) (a : α) (k nk : Int) :
    (rows.map (fun r => if r.nkey = k then { r with attrs := a } else r)).countP
      (fun r => r.nkey = nk) = rows.countP (fun r => r.nkey = nk) := by
  induction rows with
  | nil => rfl
  | cons r rest ih =>
    rw [List.map_cons, List.countP_cons, List.countP_cons, ih]
    by_cases hk : r.nkey = k
    · rw [if_pos hk]
    · rw [if_neg hk]

/-- A merge step of any source row leaves the row count of an
already-present natural key unchanged (matched keys are updated in place;
inserts concern absent keys only). -/
theorem countP_mergeStep {α : Type} (t : DimTable α) (src : Int × α) {nk : Int}
    {r0 : DimRow α} (h : findByNat t.rows nk = some r0) :
    (mergeStep t src).rows.countP (fun r => r.nkey = nk) =
      t.rows.countP (fun r => r.nkey = nk) := by
  unfold mergeStep
  cases hany : t.rows.any (fun r => r.nkey = src.1) with
  | true =>
    rw [if_pos rfl]
    exact countP_update t.rows src.2 src.1 nk
  | false =>
    rw [if_neg (by simp)]
    have hne : src.1 ≠ nk := by
      intro he
      rw [he, any_of_findByNat h] at hany
      cases hany
    show (t.rows ++ [(⟨t.next_key, src.1, src.2⟩ : DimRow α)]).countP
      (fun r => r.nkey = nk) = _
    rw [List.countP_append]
    simp [List.countP_cons, hne]

/-- A whole MERGE batch leaves the row count of an already-present
natural key unchanged. -/
theorem countP_mergeDim {α : Type} (batch : List (Int × α)) (t : DimTable α) {nk : Int}
    {r0 : DimRow α} (h : findByNat t.rows nk = some r0) :
    (mergeDim t batch).rows.countP (fun r => r.nkey = nk) =
      t.rows.countP (fun r => r.nkey = nk) := by
  induction batch generalizing t r0 with
  | nil => rfl
  | cons src rest ih =>
    obtain ⟨r1, h1⟩ := findByNat_mergeStep_some t src h
    show (mergeDim (mergeStep t src) rest).rows.countP _ = _
    rw [ih (mergeStep t src) h1, countP_mergeStep t src h]

/-- C1: a natural key already present in `cur.dim_student` or
`cur.dim_course` keeps its surrogate key across any re-run of the
dimension merge — the surrogate column is not in the update set — while
its single row is updated in place to the last staged attributes. -/
theorem C1_surrogate_key_stable :
    (∀ (t : DimTable StudentAttrs) (batch : List (Int × StudentAttrs)) (nk : Int)
       (r0 : DimRow StudentAttrs),
       findByNat t.rows nk = some r0 →
       (∀ a, (batch.filter (fun p => p.1 = nk)).getLast? = some (nk, a) →
          findByNat (merge_dim_student t batch).rows nk = some ⟨r0.skey, r0.nkey, a⟩) ∧
       (∃ r1, findByNat (merge_dim_student t batch).rows nk = some r1 ∧
          r1.skey = r0.skey ∧ r1.nkey = r0.nkey) ∧
       (merge_dim_student t batch).rows.countP (fun r => r.nkey = nk) =
         t.rows.countP (fun r => r.nkey = nk)) ∧
    (∀ (t : DimTable CourseAttrs) (batch : List (Int × CourseAttrs)) (nk : Int)
       (r0 : DimRow CourseAttrs),
       findByNat t.rows nk = some r0 →
       (∀ a, (batch.filter (fun p => p.1 = nk)).getLast? = some (nk, a) →
          findByNat (merge_dim_course t batch).rows nk = some ⟨r0.skey, r0.nkey, a⟩) ∧
       (∃ r1, findByNat (merge_dim_course t batch).rows nk = some r1 ∧
          r1.skey = r0.skey ∧ r1.nkey = r0.nkey) ∧
       (merge_dim_course t batch).rows.countP (fun r => r.nkey = nk) =
         t.rows.countP (fun r => r.nkey = nk)) := by
  constructor
  · intro t batch nk r0 h
    refine ⟨?_, ⟨_, findByNat_mergeDim_tracked batch t h, rfl, rfl⟩, countP_mergeDim batch t h⟩
    intro a hlast
    have htr := findByNat_mergeDim_tracked batch t h
    rw [foldl_replace_getLast _ r0.attrs hlast] at htr
    exact htr
  · intro t batch nk r0 h
    refine ⟨?_, ⟨_, findByNat_mergeDim_tracked batch t h, rfl, rfl⟩, countP_mergeDim batch t h⟩
    intro a hlast
    have htr := findByNat_mergeDim_tracked batch t h
    rw [foldl_replace_getLast _ r0.attrs hlast] at htr
    exact htr

/-- A one-row student dimension holding natural key 4 under surrogate 5. -/
def stAttrs0 : StudentAttrs := ⟨some "a@x.com", some "email_exact", some 100, some 0⟩

/-- Updated attributes staged for natural key 4 on a re-run. -/
def stAttrs1 : StudentAttrs := ⟨some "b@x.com", some "email_exact", some 100, some 1⟩

/-- The dimension state before the re-run of the witness scenario. -/
def dimT0 : DimTable StudentAttrs := ⟨[⟨5, 4, stAttrs0⟩], 6⟩

/-- Witness for C1: re-merging natural key 4 with fresh attributes keeps
surrogate key 5 and updates the one existing row in place. -/
theorem C1_surrogate_key_stable_witness :
    findByNat (merge_dim_student dimT0 [(4, stAttrs1)]).rows 4 = some ⟨5, 4, stAttrs1⟩ ∧
    (merge_dim_student dimT0 [(4, stAttrs1)]).rows.countP (fun r => r.nkey = 4) =
      dimT0.rows.countP (fun r => r.nkey = 4) := by
  have h := C1_surrogate_key_stable.1 dimT0 [(4, stAttrs1)] 4 ⟨5, 4, stAttrs0⟩ rfl
  exact ⟨h.1 stAttrs1 rfl, h.2.2⟩

-- ---------------------------------------------------------------------
-- C4: sorting and grouping lemmas
-- ---------------------------------------------------------------------

/-- Ordered insertion is a permutation of consing. -/
theorem insSorted_perm (x : Int) (l : List Int) :
    List.Perm (insSorted x l) (x :: l) := by
  induction l with
  | nil => exact List.Perm.refl _
  | cons y ys ih =>
    by_cases h : x ≤ y
    · simp only [insSorted, if_pos h]
      exact List.Perm.refl _
    · simp only [insSorted, if_neg h]
      exact (ih.cons y).trans (List.Perm.swap x y ys)

/-- Insertion sort permutes its input. -/
theorem sortInts_perm (l : List Int) : List.Perm (sortInts l) l := by
  induction l with
  | nil => exact List.Perm.refl _
  | cons x xs ih => exact (insSorted_perm x (sortInts xs)).trans (ih.cons x)

/-- Ordered insertion preserves sortedness. -/
theorem insSorted_pairwise {x : Int} {l : List Int} (h : l.Pairwise (· ≤ ·)) :
    (insSorted x l).Pairwise (· ≤ ·) := by
  induction l with
  | nil => simp [insSorted]
  | cons y ys ih =>
    rcases List.pairwise_cons.mp h with ⟨hy, hys⟩
    by_cases hxy : x ≤ y
    · simp only [insSorted, if_pos hxy]
      refine List.pairwise_cons.mpr ⟨?_, h⟩
      intro b hb
      rcases List.mem_cons.mp hb with rfl | hb2
      · exact hxy
      · exact le_trans hxy (hy b hb2)
    · simp only [insSorted, if_neg hxy]
      refine List.pairwise_cons.mpr ⟨?_, ih hys⟩
      intro b hb
      rcases List.mem_cons.mp ((insSorted_perm x ys).mem_iff.mp hb) with rfl | hb2
      · exact le_of_not_le hxy
      · exact hy b hb2

/-- Insertion sort sorts. -/
theorem sortInts_pairwise (l : List Int) : (sortInts l).Pairwise (· ≤ ·) := by
  induction l with
  | nil => simp [sortInts]
  | cons x xs ih => exact insSorted_pairwise ih

/-- Deduplication removes all duplicates. -/
theorem dedupInts_nodup (l : List Int) : (dedupInts l).Nodup := by
  induction l with
  | nil => exact List.nodup_nil
  | cons x xs ih =>
    simp only [dedupInts]
    by_cases h : x ∈ dedupInts xs
    · rw [if_pos h]
      exact ih
    · rw [if_neg h]
      exact List.nodup_cons.mpr ⟨h, ih⟩

/-- Deduplication preserves membership. -/
theorem mem_dedupInts {y : Int} {l : List Int} : y ∈ dedupInts l ↔ y ∈ l := by
  induction l with
  | nil => simp [dedupInts]
  | cons x xs ih =>
    simp only [dedupInts]
    by_cases h : x ∈ dedupInts xs
    · rw [if_pos h]
      constructor
      · intro hy
        exact List.mem_cons_of_mem x (ih.mp hy)
      · intro hy
        rcases List.mem_cons.mp hy with rfl | hy2
        · exact h
        · exact ih.mpr hy2
    · rw [if_neg h]
      simp [List.mem_cons, ih]

/-- Python `sorted(set(ids))` has the members of `ids`. -/
theorem mem_sortedSet {y : Int} {ids : List Int} : y ∈ sortedSet ids ↔ y ∈ ids := by
  rw [sortedSet, (sortInts_perm _).mem_iff, mem_dedupInts]

/-- Python `sorted(set(ids))` has no duplicates. -/
theorem sortedSet_nodup (ids : List Int) : (sortedSet ids).Nodup :=
  ((sortInts_perm _).nodup_iff).mpr (dedupInts_nodup ids)

/-- The head of `sorted(set(ids))` is the minimum of `ids`, and its tail
lists each non-minimal member exactly once. -/
theorem sortedSet_head_min {ids : List Int} {p : Int} {rest : List Int}
    (h : sortedSet ids = p :: rest) :
    p ∈ ids ∧ (∀ i ∈ ids, p ≤ i) ∧ p ∉ rest ∧ rest.Nodup ∧
      (∀ i, i ∈ rest ↔ (i ∈ ids ∧ i ≠ p)) := by
  have hpw := sortInts_pairwise (dedupInts ids)
  rw [show sortInts (dedupInts ids) = sortedSet ids from rfl, h] at hpw
  rcases List.pairwise_cons.mp hpw with ⟨hmin, -⟩
  have hnd := sortedSet_nodup ids
  rw [h] at hnd
  rcases List.nodup_cons.mp hnd with ⟨hpnr, hrnd⟩
  have hmem : ∀ i : Int, i ∈ p :: rest ↔ i ∈ ids := by
    intro i
    rw [← h]
    exact mem_sortedSet
  refine ⟨(hmem p).mp (List.mem_cons_self p rest), ?_, hpnr, hrnd, ?_⟩
  · intro i hi
    rcases List.mem_cons.mp ((hmem i).mpr hi) with rfl | hr
    · exact le_refl i
    · exact hmin i hr
  · intro i
    constructor
    · intro hi
      refine ⟨(hmem i).mp (List.mem_cons_of_mem p hi), ?_⟩
      intro he
      subst he
      exact hpnr hi
    · rintro ⟨hi, hne⟩
      rcases List.mem_cons.mp ((hmem i).mpr hi) with rfl | hr
      · exact absurd rfl hne
      · exact hr

/-- Keys after a `setdefault`-append: unchanged when present, the new key
arrives at the end otherwise. -/
theorem insertAppend_keys (m : List (String × List Int)) (en : String) (i : Int) :
    (insertAppend m en i).map Prod.fst =
      if en ∈ m.map Prod.fst then m.map Prod.fst else m.map Prod.fst ++ [en] := by
  induction m with
  | nil => simp [insertAppend]
  | cons g rest ih =>
    obtain ⟨k, ids⟩ := g
    by_cases hk : k = en
    · subst hk
      simp [insertAppend]
    · simp only [insertAppend, if_neg hk, List.map_cons, ih]
      by_cases hr : en ∈ rest.map Prod.fst
      · rw [if_pos hr, if_pos (by simp [List.mem_cons, hr])]
      · rw [if_neg hr, if_neg (by
          intro hc
          rcases List.mem_cons.mp hc with h | h
          · exact hk h.symm
          · exact hr h)]
        simp

/-- A `setdefault`-append never creates an empty id group. -/
theorem insertAppend_snd_ne_nil {m : List (String × List Int)} {en : String} {i : Int}
    (hm : ∀ g ∈ m, g.2 ≠ []) :
    ∀ g ∈ insertAppend m en i, g.2 ≠ [] := by
  induction m with
  | nil =>
    intro g hg
    rcases List.mem_singleton.mp hg with rfl
    simp
  | cons g0 rest ih =>
    obtain ⟨k, ids⟩ := g0
    intro g hg
    by_cases hk : k = en
    · subst hk
      simp only [insertAppend, if_pos rfl] at hg
      rcases List.mem_cons.mp hg with rfl | hg2
      · simp
      · exact hm g (List.mem_cons_of_mem _ hg2)
    · simp only [insertAppend, if_neg hk] at hg
      rcases List.mem_cons.mp hg with rfl | hg2
      · exact hm _ (List.mem_cons_self _ _)
      · exact ih (fun g2 hg2b => hm g2 (List.mem_cons_of_mem _ hg2b)) g hg2

/-- One loop iteration keeps the email-map keys duplicate-free. -/
theorem emailMapStep_keys_nodup {m : List (String × List Int)}
    (h : (m.map Prod.fst).Nodup) (r : RawUser) :
    ((emailMapStep m r).map Prod.fst).Nodup := by
  unfold emailMapStep
  cases emailOf r with
  | none => exact h
  | some en =>
    rw [insertAppend_keys]
    by_cases hm : en ∈ m.map Prod.fst
    · rw [if_pos hm]
      exact h
    · rw [if_neg hm]
      exact List.nodup_append.mpr
        ⟨h, List.nodup_singleton en, by simpa [List.disjoint_singleton] using hm⟩

/-- The email map groups distinct normalized emails. -/
theorem buildEmailMap_keys_nodup (rows : List RawUser) :
    ((buildEmailMap rows).map Prod.fst).Nodup := by
  suffices h : ∀ m : List (String × List Int), (m.map Prod.fst).Nodup →
      ((rows.foldl emailMapStep m).map Prod.fst).Nodup from h [] (by simp)
  induction rows with
  | nil => intro m hm; exact hm
  | cons r rest ih =>
    intro m hm
    rw [List.foldl_cons]
    exact ih _ (emailMapStep_keys_nodup hm r)

/-- The loop never creates an empty id group. -/
theorem foldl_emailMapStep_ne_nil (rows : List RawUser) :
    ∀ m : List (String × List Int), (∀ g ∈ m, g.2 ≠ []) →
      ∀ g ∈ rows.foldl emailMapStep m, g.2 ≠ [] := by
  induction rows with
  | nil => intro m hm; exact hm
  | cons r rest ih =>
    intro m hm
    rw [List.foldl_cons]
    refine ih (emailMapStep m r) ?_
    unfold emailMapStep
    cases emailOf r with
    | none => exact hm
    | some en2 => exact insertAppend_snd_ne_nil hm

/-- Every email-map group is nonempty. -/
theorem buildEmailMap_snd_ne_nil {rows : List RawUser} {en : String} {ids : List Int}
    (h : (en, ids) ∈ buildEmailMap rows) : ids ≠ [] :=
  foldl_emailMapStep_ne_nil rows [] (by simp) (en, ids) h

/-- The group fold with an arbitrary accumulator prefixes it to the
from-scratch result. -/
theorem resolveGroups_acc (m : List (String × List Int))
    (acc : List IdentityRow × List DqRow) :
    m.foldl (fun acc g => (acc.1 ++ groupPrim g, acc.2 ++ groupDqs g)) acc =
      (acc.1 ++ (resolveGroups m).1, acc.2 ++ (resolveGroups m).2) := by
  induction m generalizing acc with
  | nil => simp [resolveGroups]
  | cons g rest ih =>
    rw [List.foldl_cons, ih]
    have hg : resolveGroups (g :: rest) =
        ((([] : List IdentityRow) ++ groupPrim g) ++ (resolveGroups rest).1,
         (([] : List DqRow) ++ groupDqs g) ++ (resolveGroups rest).2) :=
      ih (([] : List IdentityRow) ++ groupPrim g, ([] : List DqRow) ++ groupDqs g)
    rw [hg]
    simp [List.append_assoc]

/-- Unfolding one email group out of the resolver output. -/
theorem resolveGroups_cons (g : String × List Int) (m : List (String × List Int)) :
    resolveGroups (g :: m) =
      (groupPrim g ++ (resolveGroups m).1, groupDqs g ++ (resolveGroups m).2) := by
  have h : resolveGroups (g :: m) =
      ((([] : List IdentityRow) ++ groupPrim g) ++ (resolveGroups m).1,
       (([] : List DqRow) ++ groupDqs g) ++ (resolveGroups m).2) :=
    resolveGroups_acc m (([] : List IdentityRow) ++ groupPrim g,
      ([] : List DqRow) ++ groupDqs g)
  rw [h]
  simp

/-- Every primary row carries the email of its group. -/
theorem prim_email_mem {m : List (String × List Int)} {r : IdentityRow}
    (h : r ∈ (resolveGroups m).1) : r.email_normalized ∈ m.map Prod.fst := by
  induction m with
  | nil => simp [resolveGroups] at h
  | cons g rest ih =>
    rw [resolveGroups_cons] at h
    rcases List.mem_append.mp h with h2 | h2
    · unfold groupPrim at h2
      cases hs : sortedSet g.2 with
      | nil => rw [hs] at h2; cases h2
      | cons p rest2 =>
        rw [hs] at h2
        rcases List.mem_singleton.mp h2 with rfl
        simp
    · exact List.mem_cons_of_mem _ (ih h2)

/-- Every duplicate-flag row carries the email of its group. -/
theorem dq_email_mem {m : List (String × List Int)} {r : DqRow}
    (h : r ∈ (resolveGroups m).2) : r.email_normalized ∈ m.map Prod.fst := by
  induction m with
  | nil => simp [resolveGroups] at h
  | cons g rest ih =>
    rw [resolveGroups_cons] at h
    rcases List.mem_append.mp h with h2 | h2
    · unfold groupDqs at h2
      cases hs : sortedSet g.2 with
      | nil => rw [hs] at h2; cases h2
      | cons p rest2 =>
        rw [hs] at h2
        rcases List.mem_map.mp h2 with ⟨d, -, rfl⟩
        simp
    · exact List.mem_cons_of_mem _ (ih h2)

/-- No group key `en` means no primary row with email `en`. -/
theorem prim_filter_of_not_mem {m : List (String × List Int)} {en : String}
    (h : en ∉ m.map Prod.fst) :
    (resolveGroups m).1.filter (fun r => r.email_normalized = en) = [] := by
  rw [List.filter_eq_nil_iff]
  intro r hr hp
  exact h (of_decide_eq_true hp ▸ prim_email_mem hr)

/-- No group key `en` means no duplicate-flag row with email `en`. -/
theorem dq_filter_of_not_mem {m : List (String × List Int)} {en : String}
    (h : en ∉ m.map Prod.fst) :
    (resolveGroups m).2.filter (fun r => r.email_normalized = en) = [] := by
  rw [List.filter_eq_nil_iff]
  intro r hr hp
  exact h (of_decide_eq_true hp ▸ dq_email_mem hr)

/-- With duplicate-free keys, the primary rows with email `en` are exactly
the primary row of the group of `en`. -/
theorem prim_filter_eq {m : List (String × List Int)}
    (hnd : (m.map Prod.fst).Nodup) {en : String} {ids : List Int}
    (h : (en, ids) ∈ m) :
    (resolveGroups m).1.filter (fun r => r.email_normalized = en) =
      groupPrim (en, ids) := by
  induction m with
  | nil => cases h
  | cons g rest ih =>
    rw [List.map_cons] at hnd
    rcases List.nodup_cons.mp hnd with ⟨hg1, hrest⟩
    rw [resolveGroups_cons, List.filter_append]
    rcases List.mem_cons.mp h with rfl | htail
    · rw [prim_filter_of_not_mem hg1, List.append_nil]
      show (groupPrim (en, ids)).filter _ = _
      unfold groupPrim
      cases sortedSet ids with
      | nil => rfl
      | cons p r2 => simp
    · have hg : g.1 ≠ en := by
        intro he
        exact hg1 (he ▸ List.mem_map.mpr ⟨(en, ids), htail, rfl⟩)
      have hz : (groupPrim g).filter (fun r => r.email_normalized = en) = [] := by
        unfold groupPrim
        cases sortedSet g.2 with
        | nil => rfl
        | cons p r2 => simp [hg]
      rw [hz, List.nil_append]
      exact ih hrest htail

/-- With duplicate-free keys, the duplicate-flag rows with email `en` are
exactly the flags of the group of `en`. -/
theorem dq_filter_eq {m : List (String × List Int)}
    (hnd : (m.map Prod.fst).Nodup) {en : String} {ids : List Int}
    (h : (en, ids) ∈ m) :
    (resolveGroups m).2.filter (fun r => r.email_normalized = en) =
      groupDqs (en, ids) := by
  induction m with
  | nil => cases h
  | cons g rest ih =>
    rw [List.map_cons] at hnd
    rcases List.nodup_cons.mp hnd with ⟨hg1, hrest⟩
    rw [resolveGroups_cons, List.filter_append]
    rcases List.mem_cons.mp h with rfl | htail
    · rw [dq_filter_of_not_mem hg1, List.append_nil]
      show (groupDqs (en, ids)).filter _ = _
      unfold groupDqs
      cases sortedSet ids with
      | nil => rfl
      | cons p r2 =>
        rw [List.filter_eq_self]
        intro r hr
        rcases List.mem_map.mp hr with ⟨d, -, rfl⟩
        simp
    · have hg : g.1 ≠ en := by
        intro he
        exact hg1 (he ▸ List.mem_map.mpr ⟨(en, ids), htail, rfl⟩)
      have hz : (groupDqs g).filter (fun r => r.email_normalized = en) = [] := by
        unfold groupDqs
        cases sortedSet g.2 with
        | nil => rfl
        | cons p r2 =>
          rw [List.filter_eq_nil_iff]
          intro r hr
          rcases List.mem_map.mp hr with ⟨d, -, rfl⟩
          simp [hg]
      rw [hz, List.nil_append]
      exact ih hrest htail

/-- Raw user 4 of the spec's duplicate-email scenario. -/
def exUser4 : RawUser :=
  ⟨4, Payload.pdoc (JValue.jobj (JFields.cons "email" (JValue.jstr "a@x.com") JFields.nil))⟩

/-- Raw user 7 of the spec's duplicate-email scenario (same email up to
trailing blank and case). -/
def exUser7 : RawUser :=
  ⟨7, Payload.pdoc (JValue.jobj (JFields.cons "email" (JValue.jstr "A@X.com ") JFields.nil))⟩

/-- C4: grouping ids by normalized email, the resolver emits exactly one
primary row per group, whose canonical id is the group's smallest natural
id, and exactly one duplicate flag per non-canonical member referencing
the canonical id; on the spec's example the canonical id is 4 with one
flag for 7. -/
theorem C4_duplicate_email_groups :
    (∀ (rows : List RawUser) (en : String) (ids : List Int),
       (en, ids) ∈ buildEmailMap rows →
       ∃ p rest, sortedSet ids = p :: rest ∧
         p ∈ ids ∧ (∀ i ∈ ids, p ≤ i) ∧
         (resolveIdentities rows).1.filter (fun r => r.email_normalized = en) =
           [⟨p, en, "email_exact", 100⟩] ∧
         (resolveIdentities rows).2.filter (fun r => r.email_normalized = en) =
           rest.map (fun d => ⟨d, en, "duplicate_email", "warn", p⟩) ∧
         (∀ i : Int, ((⟨i, en, "duplicate_email", "warn", p⟩ : DqRow) ∈
             (resolveIdentities rows).2 ↔ (i ∈ ids ∧ i ≠ p)))) ∧
    resolveIdentities [exUser4, exUser7] =
      ([⟨4, "a@x.com", "email_exact", 100⟩],
       [⟨7, "a@x.com", "duplicate_email", "warn", 4⟩]) := by
  refine ⟨?_, rfl⟩
  intro rows en ids h
  unfold resolveIdentities
  have hnd := buildEmailMap_keys_nodup rows
  have hne := buildEmailMap_snd_ne_nil h
  obtain ⟨x, hx⟩ := List.exists_mem_of_ne_nil ids hne
  have hxs : x ∈ sortedSet ids := mem_sortedSet.mpr hx
  cases hs : sortedSet ids with
  | nil => rw [hs] at hxs; cases hxs
  | cons p rest =>
    obtain ⟨hpmem, hpmin, -, -, hiff⟩ := sortedSet_head_min hs
    refine ⟨p, rest, rfl, hpmem, hpmin, ?_, ?_, ?_⟩
    · have := prim_filter_eq hnd h
      rw [this]
      unfold groupPrim
      rw [hs]
    · have := dq_filter_eq hnd h
      rw [this]
      unfold groupDqs
      rw [hs]
    · intro i
      have hfe := dq_filter_eq hnd h
      constructor
      · intro hmem
        have : (⟨i, en, "duplicate_email", "warn", p⟩ : DqRow) ∈
            (resolveGroups (buildEmailMap rows)).2.filter
              (fun r => r.email_normalized = en) :=
          List.mem_filter.mpr ⟨hmem, by simp⟩
        rw [hfe] at this
        unfold groupDqs at this
        rw [hs] at this
        rcases List.mem_map.mp this with ⟨d, hd, heq⟩
        have : d = i := by
          have := congrArg DqRow.canvas_user_id heq
          simpa using this
        subst this
        exact (hiff d).mp hd
      · intro hi
        have hd : i ∈ rest := (hiff i).mpr hi
        have : (⟨i, en, "duplicate_email", "warn", p⟩ : DqRow) ∈
            (resolveGroups (buildEmailMap rows)).2.filter
              (fun r => r.email_normalized = en) := by
          rw [hfe]
          unfold groupDqs
          rw [hs]
          exact List.mem_map.mpr ⟨i, hd, rfl⟩
        exact (List.mem_filter.mp this).1

/-- Witness for C4 at the spec's duplicate-email scenario. -/
theorem C4_duplicate_email_groups_witness :
    ∃ p rest, sortedSet [4, 7] = p :: rest ∧
      p ∈ [(4 : Int), 7] ∧ (∀ i ∈ [(4 : Int), 7], p ≤ i) ∧
      (resolveIdentities [exUser4, exUser7]).1.filter
          (fun r => r.email_normalized = "a@x.com") =
        [⟨p, "a@x.com", "email_exact", 100⟩] ∧
      (resolveIdentities [exUser4, exUser7]).2.filter
          (fun r => r.email_normalized = "a@x.com") =
        rest.map (fun d => ⟨d, "a@x.com", "duplicate_email", "warn", p⟩) ∧
      (∀ i : Int, ((⟨i, "a@x.com", "duplicate_email", "warn", p⟩ : DqRow) ∈
          (resolveIdentities [exUser4, exUser7]).2 ↔ (i ∈ [(4 : Int), 7] ∧ i ≠ p))) :=
  C4_duplicate_email_groups.1 [exUser4, exUser7] "a@x.com" [4, 7] (by decide)

-- ---------------------------------------------------------------------
-- C2
-- ---------------------------------------------------------------------

/-- C2 counterexample: a first run on raw user 7 alone maps
`a@x.com → 7`.  A second run that also sees user 4 (same normalized
email) picks 4 as canonical and deletes only rows of the *new primary*
id 4 — the stale row for the demoted id 7 survives, so after the commit
two rows share `email_normalized = "a@x.com"`. -/
theorem C2_counterexample :
    runIdentityMap [] [exUser7] = [⟨7, "a@x.com", "email_exact", 100⟩] ∧
    (runIdentityMap (runIdentityMap [] [exUser7]) [exUser4, exUser7]).map
        (fun r => (r.canvas_user_id, r.email_normalized)) =
      [(7, "a@x.com"), (4, "a@x.com")] :=
  ⟨rfl, rfl⟩

/-- The emails of the inserted primary rows form a sublist of the email
map's keys. -/
theorem prim_emails_sublist (m : List (String × List Int)) :
    List.Sublist ((resolveGroups m).1.map (fun r => r.email_normalized))
      (m.map Prod.fst) := by
  induction m with
  | nil => simp [resolveGroups]
  | cons g rest ih =>
    rw [resolveGroups_cons, List.map_append, List.map_cons]
    unfold groupPrim
    cases sortedSet g.2 with
    | nil => exact List.Sublist.cons _ ih
    | cons p r2 =>
      show List.Sublist (g.1 :: (resolveGroups rest).1.map (fun r => r.email_normalized))
        (g.1 :: rest.map Prod.fst)
      exact List.Sublist.cons₂ _ ih

/-- C2 amended: within one run each normalized email yields exactly one
inserted primary row, and the delete-before-insert removes prior rows
only for the new primary ids; hence the whole-table uniqueness of
`email_normalized` holds when the map starts empty, while a surviving
row must be a prior row whose id is no new primary. -/
theorem C2_identity_map_uniqueness_amended :
    (∀ rows : List RawUser,
       ((resolveIdentities rows).1.map (fun r => r.email_normalized)).Nodup) ∧
    (∀ rows : List RawUser,
       ((runIdentityMap [] rows).map (fun r => r.email_normalized)).Nodup) ∧
    (∀ (prior : List IdentityRow) (rows : List RawUser) (r : IdentityRow),
       r ∈ runIdentityMap prior rows →
       r ∈ (resolveIdentities rows).1 ∨
         (r ∈ prior ∧ ∀ p ∈ (resolveIdentities rows).1,
           p.canvas_user_id ≠ r.canvas_user_id)) := by
  have h1 : ∀ rows : List RawUser,
      ((resolveIdentities rows).1.map (fun r => r.email_normalized)).Nodup := by
    intro rows
    exact (buildEmailMap_keys_nodup rows).sublist (prim_emails_sublist (buildEmailMap rows))
  refine ⟨h1, ?_, ?_⟩
  · intro rows
    simpa [runIdentityMap] using h1 rows
  · intro prior rows r hr
    unfold runIdentityMap at hr
    rcases List.mem_append.mp hr with h | h
    · right
      rcases List.mem_filter.mp h with ⟨hp, hc⟩
      refine ⟨hp, ?_⟩
      intro p hpmem he
      have hany : (resolveIdentities rows).1.any
          (fun p => p.canvas_user_id = r.canvas_user_id) = true :=
        List.any_eq_true.mpr ⟨p, hpmem, decide_eq_true he⟩
      rw [hany] at hc
      simp at hc
    · left
      exact h

/-- Witness for the amended C2 at a one-user run on an empty map. -/
theorem C2_identity_map_uniqueness_amended_witness :
    (⟨7, "a@x.com", "email_exact", 100⟩ : IdentityRow) ∈ (resolveIdentities [exUser7]).1 ∨
      ((⟨7, "a@x.com", "email_exact", 100⟩ : IdentityRow) ∈ ([] : List IdentityRow) ∧
        ∀ p ∈ (resolveIdentities [exUser7]).1, p.canvas_user_id ≠ 7) :=
  C2_identity_map_uniqueness_amended.2.2 [] [exUser7]
    ⟨7, "a@x.com", "email_exact", 100⟩ (by decide)

-- ---------------------------------------------------------------------
-- C9
-- ---------------------------------------------------------------------

/-- C9 counterexample: one malformed record in the incremental window is
skipped and the run continues (the read returns `ok`), but the parse
failure is NOT counted anywhere: `read_raw_courses` returns no failure
counter at all, and both counters of `read_raw_submissions` stay 0.
(`"oops"` is not valid JSON, so `json.loads` raises on it.) -/
theorem C9_counterexample :
    read_raw_courses pdtEx 0 [⟨1, Payload.pbad "oops", none, some 3⟩] none =
      Except.ok ([], some 3) ∧
    read_raw_submissions [] [] pdtEx 0 [⟨1, Payload.pbad "oops", none, some 3⟩] none =
      Except.ok ([], 0, 0, some 3) :=
  ⟨rfl, rfl⟩

/-- C9 amended: a record whose payload fails to parse as JSON is skipped
per-record and the loop continues with the remaining records; its only
effect is on the running ingestion maximum.  No counter is incremented:
the course read has no failure counter and the submission read's two
counters (unresolved person/course) are untouched. -/
theorem C9_parse_failure_skips_uncounted :
    (∀ (pdt : String → Option DT) (now : DT) (acc : List (Int × CourseAttrs))
       (m : Option DT) (s : String) (i : Int) (ru ing : Option DT)
       (rest : List RawRec),
       readCoursesGo pdt now acc m (⟨i, Payload.pbad s, ru, ing⟩ :: rest) =
         readCoursesGo pdt now acc (maxIngStep m ing) rest) ∧
    (∀ (smap cmap : KeyMap) (pdt : String → Option DT) (now : DT)
       (acc : List SubRow) (su sc : Nat) (m : Option DT) (s : String) (i : Int)
       (ru ing : Option DT) (rest : List RawRec),
       readSubsGo smap cmap pdt now acc su sc m (⟨i, Payload.pbad s, ru, ing⟩ :: rest) =
         readSubsGo smap cmap pdt now acc su sc (maxIngStep m ing) rest) :=
  ⟨fun _ _ _ _ _ _ _ _ _ => rfl, fun _ _ _ _ _ _ _ _ _ _ _ _ _ => rfl⟩

-- ---------------------------------------------------------------------
-- C10
-- ---------------------------------------------------------------------

/-- C10 counterexample: with the argument *supplied* as the empty string,
the run does not raise and still consults the stored watermark — two
database states differing only in the stored watermark produce different
`since` values — refuting "the stored watermark is consulted only when
the argument is omitted". -/
theorem C10_counterexample :
    computeSince (fun _ => none) [("raw.canvas_submissions", 100)] (some "") =
      Except.ok (some 100) ∧
    computeSince (fun _ => none) [] (some "") = Except.ok none :=
  ⟨rfl, rfl⟩

/-- An empty database state for witnesses. -/
def emptyDb : DbState := ⟨[], ⟨[], 1⟩, ⟨[], 1⟩, [], []⟩

/-- C10 amended: a truthy (nonempty) `--since-ingested-at` string that
does not parse raises `ValueError` before any read or merge (the state is
returned unchanged); the stored watermark is consulted exactly when the
argument is omitted *or is the falsy empty string*; a parseable argument
bypasses the watermark entirely. -/
theorem C10_cli_validation_amended :
    (∀ (pdt : String → Option DT) (now : DT) (courseRecs subRecs : List RawRec)
       (db : DbState) (s : String),
       s ≠ "" → parse_cli_dt_to_naive_utc pdt (some s) = none →
       mainRun pdt now courseRecs subRecs (some s) db =
         Except.error (db, "ValueError: invalid since-ingested-at")) ∧
    (∀ (pdt : String → Option DT) (wm : Watermarks),
       computeSince pdt wm none =
         Except.ok (get_last_watermark wm "raw.canvas_submissions") ∧
       computeSince pdt wm (some "") =
         Except.ok (get_last_watermark wm "raw.canvas_submissions")) ∧
    (∀ (pdt : String → Option DT) (wm : Watermarks) (cli : Option String) (v : DT),
       parse_cli_dt_to_naive_utc pdt cli = some v →
       computeSince pdt wm cli = Except.ok (some v)) := by
  refine ⟨?_, fun pdt wm => ⟨rfl, rfl⟩, ?_⟩
  · intro pdt now courseRecs subRecs db s hs hp
    have hcs : computeSince pdt db.watermark (some s) =
        Except.error "ValueError: invalid since-ingested-at" := by
      unfold computeSince
      rw [hp]
      simp [cliTruthy, hs]
    unfold mainRun
    rw [hcs]
  · intro pdt wm cli v hp
    unfold computeSince
    rw [hp]
    simp

/-- Witness for the amended C10 at a concrete non-parsing argument. -/
theorem C10_cli_validation_amended_witness :
    mainRun (fun _ => none) 0 [] [] (some "bogus") emptyDb =
      Except.error (emptyDb, "ValueError: invalid since-ingested-at") :=
  C10_cli_validation_amended.1 (fun _ => none) 0 [] [] emptyDb "bogus"
    (by decide) rfl

-- ---------------------------------------------------------------------
-- C8
-- ---------------------------------------------------------------------

/-- C8 counterexample: the bare text `a@x.com` is NOT valid JSON (no
quotes), so `json.loads` raises — yet the resolver does not treat the
record as contributing no email: the `treat as string` fallback scans the
raw text, the email matches, and the record produces an identity-map
row. -/
theorem C8_counterexample :
    emailOf ⟨5, Payload.pbad "a@x.com"⟩ = some "a@x.com" ∧
    runIdentityMap [] [⟨5, Payload.pbad "a@x.com"⟩] =
      [⟨5, "a@x.com", "email_exact", 100⟩] :=
  ⟨rfl, rfl⟩

/-- Skipping a record that contributes no email leaves the email map of
the whole run unchanged. -/
theorem buildEmailMap_skip {pre post : List RawUser} {r : RawUser}
    (h : emailOf r = none) :
    buildEmailMap (pre ++ r :: post) = buildEmailMap (pre ++ post) := by
  unfold buildEmailMap
  rw [List.foldl_append, List.foldl_append, List.foldl_cons]
  have hstep : emailMapStep (pre.foldl emailMapStep []) r = pre.foldl emailMapStep [] := by
    unfold emailMapStep
    rw [h]
  rw [hstep]

/-- A successful split exhibits the first `'@'`. -/
theorem splitAtFirstAt_eq {cs l r : List Char}
    (h : splitAtFirstAt cs = some (l, r)) : cs = l ++ '@' :: r := by
  induction cs generalizing l r with
  | nil => cases h
  | cons c cs2 ih =>
    by_cases hc : c = '@'
    · subst hc
      rw [show splitAtFirstAt ('@' :: cs2) = some ([], cs2) from by
        simp [splitAtFirstAt]] at h
      simp only [Option.some.injEq, Prod.mk.injEq] at h
      obtain ⟨h1, h2⟩ := h
      subst h1
      subst h2
      rfl
    · simp only [splitAtFirstAt, if_neg hc] at h
      cases hs : splitAtFirstAt cs2 with
      | none => rw [hs] at h; cases h
      | some p =>
        obtain ⟨l2, r2⟩ := p
        rw [hs] at h
        simp only [Option.some.injEq, Prod.mk.injEq] at h
        obtain ⟨h1, h2⟩ := h
        subst h2
        rw [← h1, List.cons_append, ih hs]

/-- A string matched by `EMAIL_RE` contains no whitespace at all. -/
theorem emailMatch_no_ws {t : String} (h : emailMatch t = true) :
    ∀ c ∈ t.data, c.isWhitespace = false := by
  unfold emailMatch at h
  cases hs : splitAtFirstAt t.data with
  | none => rw [hs] at h; cases h
  | some p =>
    obtain ⟨l, r⟩ := p
    rw [hs] at h
    simp only [Bool.and_eq_true] at h
    obtain ⟨⟨⟨⟨-, hla⟩, -⟩, hra⟩, -⟩ := h
    intro c hc
    rw [splitAtFirstAt_eq hs] at hc
    rcases List.mem_append.mp hc with hc | hc
    · have h2 := List.all_eq_true.mp hla c hc
      simp [isEmailChar] at h2
      exact h2.1
    · rcases List.mem_cons.mp hc with rfl | hc
      · rfl
      · have h2 := List.all_eq_true.mp hra c hc
        simp [isEmailChar] at h2
        exact h2.1

/-- A string matched by `EMAIL_RE` is nonempty. -/
theorem emailMatch_ne_nil {t : String} (h : emailMatch t = true) : t.data ≠ [] := by
  unfold emailMatch at h
  cases hs : splitAtFirstAt t.data with
  | none => rw [hs] at h; cases h
  | some p =>
    obtain ⟨l, r⟩ := p
    rw [splitAtFirstAt_eq hs]
    simp

/-- The `dropWhile` of a list is the list itself when no element satisfies the predicate. -/
theorem dropWhile_eq_self_of_all {p : Char → Bool} {cs : List Char}
    (h : ∀ c ∈ cs, p c = false) : cs.dropWhile p = cs := by
  cases cs with
  | nil => rfl
  | cons c rest =>
    rw [List.dropWhile_cons_of_neg]
    rw [h c (List.mem_cons_self _ _)]
    exact Bool.false_ne_true

/-- Stripping is the identity on whitespace-free text. -/
theorem trimChars_of_no_ws {cs : List Char} (h : ∀ c ∈ cs, c.isWhitespace = false) :
    trimChars cs = cs := by
  unfold trimChars
  rw [dropWhile_eq_self_of_all h,
    dropWhile_eq_self_of_all (fun c hc => h c (List.mem_reverse.mp hc))]
  exact List.reverse_reverse cs

/-- Stripping is the identity on a string matched by `EMAIL_RE`. -/
theorem strTrim_of_emailMatch {t : String} (h : emailMatch t = true) :
    strTrim t = t := by
  cases t with
  | mk cs =>
    show String.mk (trimChars cs) = String.mk cs
    rw [trimChars_of_no_ws (emailMatch_no_ws h)]

/-- Lower-casing keeps a nonempty string nonempty. -/
theorem strLower_ne_empty {t : String} (h : t.data ≠ []) : strLower t ≠ "" := by
  unfold strLower
  intro hc
  have h2 : t.data.map Char.toLower = [] := congrArg String.data hc
  rw [List.map_eq_nil_iff] at h2
  exact h h2

/-- C8 amended: an unparseable payload is scanned as its raw text
(`treat as string`): it contributes the trimmed text as an email exactly
when that text matches the email pattern, and contributes nothing
otherwise; `NULL` payloads and parsed non-container scalars contribute
nothing; a record contributing no email leaves the resolver's entire
output unchanged (the run is never aborted). -/
theorem C8_unparseable_payload_amended :
    (∀ (i : Int) (s : String),
       emailOf ⟨i, Payload.pbad s⟩ =
         (if emailMatch (strTrim s) then normalize_email (some (strTrim s)) else none)) ∧
    (∀ i : Int, emailOf ⟨i, Payload.pnull⟩ = none) ∧
    (∀ (i n : Int), emailOf ⟨i, Payload.pdoc (JValue.jnum n)⟩ = none) ∧
    (∀ (i : Int) (b : Bool), emailOf ⟨i, Payload.pdoc (JValue.jbool b)⟩ = none) ∧
    (∀ (prior : List IdentityRow) (pre post : List RawUser) (r : RawUser),
       emailOf r = none →
       runIdentityMap prior (pre ++ r :: post) = runIdentityMap prior (pre ++ post) ∧
       runIdentityDq [] (pre ++ r :: post) = runIdentityDq [] (pre ++ post)) := by
  refine ⟨?_, fun i => rfl, fun i n => rfl, ?_, ?_⟩
  · intro i s
    have hf : find_email (JValue.jstr s) =
        (if emailMatch (strTrim s) then some (strTrim s) else none) := rfl
    show (match normalize_email (find_email (JValue.jstr s)) with
      | some en => if en = "" then none else some en
      | none => none) = _
    rw [hf]
    by_cases hm : emailMatch (strTrim s)
    · rw [if_pos hm, if_pos hm]
      have hne : strTrim s ≠ "" := by
        intro hc
        apply emailMatch_ne_nil hm
        rw [hc]
      have h1 : normalize_email (some (strTrim s)) = some (strLower (strTrim s)) := by
        show (if strTrim s = "" then none
          else some (strLower (strTrim (strTrim s)))) = some (strLower (strTrim s))
        rw [if_neg hne, strTrim_of_emailMatch hm]
      rw [h1]
      show (if strLower (strTrim s) = "" then none else some (strLower (strTrim s))) =
        some (strLower (strTrim s))
      rw [if_neg (strLower_ne_empty (emailMatch_ne_nil hm))]
    · rw [if_neg hm, if_neg hm]
      rfl
  · intro i b
    cases b <;> rfl
  · intro prior pre post r h
    constructor
    · unfold runIdentityMap resolveIdentities
      rw [buildEmailMap_skip h]
    · unfold runIdentityDq resolveIdentities
      rw [buildEmailMap_skip h]

/-- Witness for the amended C8: a non-email unparseable payload changes
nothing in the run's output. -/
theorem C8_unparseable_payload_amended_witness :
    runIdentityMap [] ([] ++ (⟨5, Payload.pbad "not an email"⟩ : RawUser) :: []) =
      runIdentityMap [] ([] ++ []) ∧
    runIdentityDq [] ([] ++ (⟨5, Payload.pbad "not an email"⟩ : RawUser) :: []) =
      runIdentityDq [] ([] ++ []) :=
  C8_unparseable_payload_amended.2.2.2.2 [] [] [] ⟨5, Payload.pbad "not an email"⟩ rfl

-- ---------------------------------------------------------------------
-- C7
-- ---------------------------------------------------------------------

/-- A raw course record ingested at time 10. -/
def cRec10 : RawRec := ⟨1, Payload.pdoc (JValue.jobj JFields.nil), none, some 10⟩

/-- A raw submission record ingested at time 5. -/
def sRec5 : RawRec := ⟨2, Payload.pdoc (JValue.jobj JFields.nil), none, some 5⟩

/-- C7 counterexample: with one course record ingested at 10 and one
submission record ingested at 5, the committed watermark for
`raw.canvas_submissions` is 10 — the value is the maximum over BOTH raw
reads, not the maximum `ingested_at` among the submission records
actually observed and merged, which is 5. -/
theorem C7_counterexample :
    (mainRun (fun _ => none) 0 [cRec10] [sRec5] none emptyDb).map
        (fun db => get_last_watermark db.watermark "raw.canvas_submissions") =
      Except.ok (some 10) ∧
    (read_raw_submissions [] [(1, 1)] (fun _ => none) 0 [sRec5] none).map
        (fun t => t.2.2.2) = Except.ok (some 5) ∧
    (10 : DT) ≠ 5 :=
  ⟨rfl, rfl, by decide⟩

/-- State after the student-dimension merge committed. -/
def dbAfterStudent (db : DbState) (now : DT) : DbState :=
  { db with
    dim_student := merge_dim_student db.dim_student
      (read_person_identity_map now db.person_identity_map) }

/-- State after the course-dimension merge committed. -/
def dbAfterCourse (db : DbState) (now : DT)
    (course_rows : List (Int × CourseAttrs)) : DbState :=
  { dbAfterStudent db now with
    dim_course := merge_dim_course db.dim_course course_rows }

/-- State after the fact merge committed. -/
def dbAfterFact (db : DbState) (now : DT) (course_rows : List (Int × CourseAttrs))
    (sub_rows : List SubRow) : DbState :=
  { dbAfterCourse db now course_rows with
    fact_submission := merge_fact_submission db.fact_submission sub_rows }

/-- The four watermark upserts of a successful run. -/
def finalWatermarks (wm : Watermarks) (pt now : DT) : Watermarks :=
  upsert_watermark (upsert_watermark (upsert_watermark
    (upsert_watermark wm "raw.canvas_submissions" pt) "cur.dim_course" pt)
    "cur.fact_submission" pt) "cur.dim_student" now

/-- C7 amended: the four watermark rows are written only on the success
path — any phase failure leaves the watermark table exactly as it was —
and the committed value for `raw.canvas_submissions` (and the curated
sources) is the combined running maximum of `ingested_at` over the
records of BOTH incremental reads, parse-skipped records included; when
both reads observe nothing the watermarks are left unchanged. -/
theorem C7_watermark_amended :
    (∀ (pdt : String → Option DT) (now : DT) (courseRecs subRecs : List RawRec)
       (cli : Option String) (db db2 : DbState) (msg : String),
       mainRun pdt now courseRecs subRecs cli db = Except.error (db2, msg) →
       db2.watermark = db.watermark) ∧
    (∀ (pdt : String → Option DT) (now : DT) (courseRecs subRecs : List RawRec)
       (cli : Option String) (db db2 : DbState),
       mainRun pdt now courseRecs subRecs cli db = Except.ok db2 →
       ∃ since course_rows cmax sub_rows su sc smax,
         computeSince pdt db.watermark cli = Except.ok since ∧
         read_raw_courses pdt now courseRecs since = Except.ok (course_rows, cmax) ∧
         read_raw_submissions
             (load_student_key_map (merge_dim_student db.dim_student
               (read_person_identity_map now db.person_identity_map)))
             (load_course_key_map (merge_dim_course db.dim_course course_rows))
             pdt now subRecs since = Except.ok (sub_rows, su, sc, smax) ∧
         (match maxIngStep (maxIngStep none cmax) smax with
          | none => db2.watermark = db.watermark
          | some pt => db2.watermark = finalWatermarks db.watermark pt now)) := by
  constructor
  · intro pdt now courseRecs subRecs cli db db2 msg h
    cases hcs : computeSince pdt db.watermark cli with
    | error e =>
      have hm : mainRun pdt now courseRecs subRecs cli db = Except.error (db, e) := by
        simp [mainRun, hcs]
      rw [hm] at h
      injection h with h
      rw [show db2 = db from (congrArg Prod.fst h).symm]
    | ok since =>
      cases hrc : read_raw_courses pdt now courseRecs since with
      | error e =>
        have hm : mainRun pdt now courseRecs subRecs cli db =
            Except.error (dbAfterStudent db now, e) := by
          simp [mainRun, hcs, hrc, dbAfterStudent]
        rw [hm] at h
        injection h with h
        rw [show db2 = dbAfterStudent db now from (congrArg Prod.fst h).symm]
        rfl
      | ok cr =>
        obtain ⟨course_rows, cmax⟩ := cr
        cases hrs : read_raw_submissions
            (load_student_key_map (merge_dim_student db.dim_student
              (read_person_identity_map now db.person_identity_map)))
            (load_course_key_map (merge_dim_course db.dim_course course_rows))
            pdt now subRecs since with
        | error e =>
          have hm : mainRun pdt now courseRecs subRecs cli db =
              Except.error (dbAfterCourse db now course_rows, e) := by
            simp [mainRun, hcs, hrc, hrs, dbAfterCourse, dbAfterStudent]
          rw [hm] at h
          injection h with h
          rw [show db2 = dbAfterCourse db now course_rows from (congrArg Prod.fst h).symm]
          rfl
        | ok sr =>
          obtain ⟨sub_rows, su, sc, smax⟩ := sr
          cases hpt : maxIngStep (maxIngStep none cmax) smax with
          | none =>
            have hm : mainRun pdt now courseRecs subRecs cli db =
                Except.ok (dbAfterFact db now course_rows sub_rows) := by
              simp [mainRun, hcs, hrc, hrs, hpt, dbAfterFact, dbAfterCourse, dbAfterStudent]
            rw [hm] at h
            cases h
          | some pt =>
            have hm : mainRun pdt now courseRecs subRecs cli db =
                Except.ok { dbAfterFact db now course_rows sub_rows with
                  watermark := finalWatermarks db.watermark pt now } := by
              simp [mainRun, hcs, hrc, hrs, hpt, dbAfterFact, dbAfterCourse,
                dbAfterStudent, finalWatermarks]
            rw [hm] at h
            cases h
  · intro pdt now courseRecs subRecs cli db db2 h
    cases hcs : computeSince pdt db.watermark cli with
    | error e =>
      have hm : mainRun pdt now courseRecs subRecs cli db = Except.error (db, e) := by
        simp [mainRun, hcs]
      rw [hm] at h
      cases h
    | ok since =>
      cases hrc : read_raw_courses pdt now courseRecs since with
      | error e =>
        have hm : mainRun pdt now courseRecs subRecs cli db =
            Except.error (dbAfterStudent db now, e) := by
          simp [mainRun, hcs, hrc, dbAfterStudent]
        rw [hm] at h
        cases h
      | ok cr =>
        obtain ⟨course_rows, cmax⟩ := cr
        cases hrs : read_raw_submissions
            (load_student_key_map (merge_dim_student db.dim_student
              (read_person_identity_map now db.person_identity_map)))
            (load_course_key_map (merge_dim_course db.dim_course course_rows))
            pdt now subRecs since with
        | error e =>
          have hm : mainRun pdt now courseRecs subRecs cli db =
              Except.error (dbAfterCourse db now course_rows, e) := by
            simp [mainRun, hcs, hrc, hrs, dbAfterCourse, dbAfterStudent]
          rw [hm] at h
          cases h
        | ok sr =>
          obtain ⟨sub_rows, su, sc, smax⟩ := sr
          refine ⟨since, course_rows, cmax, sub_rows, su, sc, smax, rfl, hrc, hrs, ?_⟩
          cases hpt : maxIngStep (maxIngStep none cmax) smax with
          | none =>
            have hm : mainRun pdt now courseRecs subRecs cli db =
                Except.ok (dbAfterFact db now course_rows sub_rows) := by
              simp [mainRun, hcs, hrc, hrs, hpt, dbAfterFact, dbAfterCourse, dbAfterStudent]
            rw [hm] at h
            injection h with h
            rw [← h]
            rfl
          | some pt =>
            have hm : mainRun pdt now courseRecs subRecs cli db =
                Except.ok { dbAfterFact db now course_rows sub_rows with
                  watermark := finalWatermarks db.watermark pt now } := by
              simp [mainRun, hcs, hrc, hrs, hpt, dbAfterFact, dbAfterCourse,
                dbAfterStudent, finalWatermarks]
            rw [hm] at h
            injection h with h
            rw [← h]

/-- Witness for the amended C7: a run rejected on the CLI argument leaves
the watermark table untouched. -/
theorem C7_watermark_amended_witness : emptyDb.watermark = emptyDb.watermark :=
  C7_watermark_amended.1 (fun _ => none) 0 [] [] (some "x") emptyDb emptyDb
    "ValueError: invalid since-ingested-at" rfl

end CanvasPipeline
